import Mathlib

/-!
# CopyQ clipboard server

A shallow embedding of `src/app/clipboardserver.cpp`: the supervision of the
clipboard monitor process (`startMonitoring`, `stopMonitoring`,
`monitorConnectionError`), the classification of clipboard notifications
(`newMonitorMessage`, `changeClipboard`), the acceptor of client connections
(`newConnection`, `doCommand`), the results sent to clients (`sendMessage`), the
shutdown path (`askToQuit`, `maybeQuit`, `onAboutToQuit`), the configuration of
the monitor (`loadMonitorSettings`) and the registry of global shortcuts
(`loadSettings`, `createGlobalShortcut`, `shortcutActivated`); and of
`TabDialog::validate` (`src/gui/tabdialog.cpp`), the cache of `ItemDelegate`
(`src/item/itemdelegate.cpp`), the timer of `ItemEditor`
(`src/item/itemeditor.cpp`) and `canSaveItems` and `loadItems` of
`ItemEncryptedLoader` (`plugins/itemencrypted/itemencrypted.cpp`).

The member variables of `ClipboardServer` become the fields of a record, every
slot becomes a function from server state to server state, and the objects the
server allocates with `new` live in an explicit heap (a list indexed by
allocation order), so that a pointer is an index and `NULL` is `none`.
Lines that only write to the debug log (`COPYQ_LOG`) are left out.
-/

namespace CopyQ

/-! ## Data -/

/-- Bytes of a `QByteArray`, one number per byte. -/
abbrev QByteArray := List Nat

/-- A `QVariantMap` holding clipboard data: format tag to bytes. -/
abbrev QVariantMap := List (String × QByteArray)

/-- The class `Arguments`: the argv of a command request, in order. -/
abbrev Arguments := List QByteArray

/-- Whether the map has an entry for the key: `QVariantMap::contains`. -/
def mapContains (m : QVariantMap) (k : String) : Bool :=
  m.any (fun e => e.1 == k)

/-- The bytes stored under the key, empty when the key is missing:
`QVariantMap::value` followed by `toByteArray`. -/
def mapValue (m : QVariantMap) (k : String) : QByteArray :=
  match m.find? (fun e => e.1 == k) with
  | some e => e.2
  | none => []

/-- UTF-8 bytes of the literal "selection" that `newMonitorMessage` compares the
clipboard mode with. -/
def selectionMode : QByteArray := [115, 101, 108, 101, 99, 116, 105, 111, 110]

/-- Severity passed to `log`. -/
inductive LogLevel where
  | LogNote
  | LogWarning
  | LogError
  deriving DecidableEq, Repr

/-- One call of `log`: a fixed (translated) text, optionally with an argument,
or a line of bytes received from the monitor. -/
inductive LogEntry where
  | text (msg : String) (arg : String) (level : LogLevel)
  | line (bytes : QByteArray) (level : LogLevel)
  deriving DecidableEq, Repr

/-- Functions and constants that `clipboardserver.cpp` uses but that are defined
in files outside the sources at hand (`common/common.h`, `item/serialize.h`,
`item/clipboarditem.h`, `common/client_server.cpp`, Qt). They are parameters of
the embedding; no theorem assumes anything about them that it does not state. -/
structure Env where
  /-- Whether the build defines `COPYQ_WS_X11`. -/
  COPYQ_WS_X11 : Bool
  /-- The constant `mimeMessage`. -/
  mimeMessage : String
  /-- The constant `mimeClipboardMode`. -/
  mimeClipboardMode : String
  /-- The function `deserializeData`: `none` when it returns false. -/
  deserializeData : QByteArray → Option QVariantMap
  /-- The function `serializeData`. -/
  serializeData : QVariantMap → QByteArray
  /-- The free function `hash(data)` used by `changeClipboard`. -/
  hash : QVariantMap → Nat
  /-- What `ClipboardItem::dataHash()` returns after `setData(data)`. -/
  dataHash : QVariantMap → Nat
  /-- What `ClipboardItem::isEmpty()` returns after `setData(data)`. -/
  isEmpty : QVariantMap → Bool
  /-- The function `ownsClipboardData`. -/
  ownsClipboardData : QVariantMap → Bool
  /-- The channel name `clipboardMonitorServerName().arg(k)`. -/
  clipboardMonitorServerName : Nat → String
  /-- The result of `QLocalServer::removeServer(name)`. -/
  removeServer : String → Bool
  /-- The operator `in >> args` on the payload of a client frame: the arguments
  left in `args`, and whether the stream status is still `Ok` afterwards. -/
  readArguments : QByteArray → Arguments × Bool

/-- Modelled from the spec: `RemoteProcess` (`app/remoteprocess.h` is not among
the sources), the handle of one monitor session: the channel name and argv given
to `start`, whether the subprocess is connected, whether the server's slots are
still wired to its signals, and whether it was closed and handed to
`deleteLater`. -/
structure RemoteProcess where
  name : String
  arguments : List String
  connected : Bool
  wired : Bool
  closed : Bool
  deleted : Bool
  written : List QByteArray
  deriving DecidableEq, Repr

/-- Modelled from the spec: the part of `MainWindow` (`gui/mainwindow.h` is not
among the sources) that the server talks to: the auto-update flag of the first
browser, the calls of `clipboardChanged`, the user's storing-disabled switch,
and the items handed to `addToTab` (the history), oldest first. -/
structure MainWindow where
  autoUpdate : Bool
  clipboardChanges : List QVariantMap
  storingDisabled : Bool
  history : List QVariantMap
  deriving DecidableEq, Repr

/-- A client connection: the socket descriptor, what `readMessage` yields on it
(`none` when it returns false) and the socket's error string. -/
structure QLocalSocket where
  descriptor : Nat
  incoming : Option QByteArray
  errorString : String
  deriving DecidableEq, Repr

/-- A `ScriptableWorker` as `doCommand` sets it up: its argv, its client
(`none` for `NULL`) and the four signal connections. -/
structure ScriptableWorker where
  args : Arguments
  client : Option Nat
  deleteWhenFinished : Bool
  terminateOnQuit : Bool
  terminateOnDisconnect : Bool
  sendsMessages : Bool
  deriving DecidableEq, Repr

/-- State of `ClipboardServer`, together with the file-level counter
`monitorProcessId`, the heap of `RemoteProcess` objects, the log, and what
happened to client sockets. -/
structure ClipboardServer where
  wnd : MainWindow
  /-- Every `RemoteProcess` ever allocated, in allocation order. -/
  heap : List RemoteProcess
  /-- The pointer `m_monitor`: an index into `heap`, or `none` for `NULL`. -/
  m_monitor : Option Nat
  m_checkclip : Bool
  m_lastHash : Nat
  m_ignoreNextItem : Bool
  monitorProcessId : Nat
  m_clientThreads : List ScriptableWorker
  m_internalThreads : List ScriptableWorker
  /-- Calls of `log`, oldest first. -/
  logged : List LogEntry
  /-- Descriptors of client sockets on which `deleteLater` was called. -/
  disposedClients : List Nat
  /-- Frames written to client sockets: descriptor and payload. -/
  sentFrames : List (Nat × QByteArray)
  deriving DecidableEq, Repr

/-! ## Small helpers -/

/-- The function `log(text, level)`. -/
def log (s : ClipboardServer) (e : LogEntry) : ClipboardServer :=
  { s with logged := s.logged ++ [e] }

/-- Apply a member function to the object that `m_monitor` points to. -/
def onMonitor (s : ClipboardServer) (f : RemoteProcess → RemoteProcess) : ClipboardServer :=
  match s.m_monitor with
  | none => s
  | some i => { s with heap := s.heap.modify f i }

/-- The call `m_wnd->clipboardChanged(data)`. -/
def clipboardChanged (s : ClipboardServer) (data : QVariantMap) : ClipboardServer :=
  { s with wnd := { s.wnd with clipboardChanges := s.wnd.clipboardChanges ++ [data] } }

/-- The call `m_wnd->addToTab(data, QString(), true)`. -/
def addToTab (s : ClipboardServer) (data : QVariantMap) : ClipboardServer :=
  { s with wnd := { s.wnd with history := s.wnd.history ++ [data] } }

/-- Modelled from the spec: `QObject::disconnect()` on the session: none of its
signals reaches the server any more. -/
def RemoteProcess.disconnect (p : RemoteProcess) : RemoteProcess :=
  { p with wired := false }

/-- Modelled from the spec: `RemoteProcess::closeConnection()`: the channel is
closed and the subprocess is made to exit. -/
def RemoteProcess.closeConnection (p : RemoteProcess) : RemoteProcess :=
  { p with connected := false, closed := true }

/-- Modelled from the spec: `QObject::deleteLater()` on the session. -/
def RemoteProcess.deleteLater (p : RemoteProcess) : RemoteProcess :=
  { p with deleted := true }

/-- A session after `disconnect()`, `closeConnection()` and `deleteLater()`:
fully torn down. -/
def RemoteProcess.tornDown (p : RemoteProcess) : Bool :=
  p.closed && p.deleted && !p.wired && !p.connected

/-- A live session: one that is not fully torn down. -/
def RemoteProcess.live (p : RemoteProcess) : Bool :=
  !p.tornDown

/-! ## Monitor supervision -/

/-- The function `ClipboardServer::stopMonitoring`. -/
def stopMonitoring (s : ClipboardServer) : ClipboardServer :=
  match s.m_monitor with
  | none => s
  | some _ =>
    let s1 := log s (.text "Clipboard Monitor: Terminating" "" .LogNote)
    -- m_monitor->disconnect(); m_monitor->closeConnection(); m_monitor->deleteLater();
    let s2 := onMonitor s1 (fun p => p.disconnect.closeConnection.deleteLater)
    let s3 := { s2 with m_monitor := none }
    log s3 (.text "Clipboard Monitor: Terminated" "" .LogNote)

/-- The largest value of an `int`. -/
def INT_MAX : Nat := 2147483647

/-- The retry loop of `startMonitoring`:
`while ( !QLocalServer::removeServer(name) ) name = ...arg(++monitorProcessId);`
run from counter value `id`, returning the final counter value. The counter is
an `int`: the first argument is the number of values left up to `INT_MAX`
(`INT_MAX + 1 - id`), and the loop has no defined result (`none`) once `++` would
overflow. -/
def retryLoop (env : Env) : Nat → Nat → Option Nat
  | 0, _ => none
  | room + 1, id =>
    if env.removeServer (env.clipboardMonitorServerName id) then some id
    else retryLoop env room (id + 1)

/-- The function `ClipboardServer::startMonitoring`; `none` when the retry loop
has no defined result. -/
def startMonitoring (env : Env) (s : ClipboardServer) : Option ClipboardServer :=
  match s.m_monitor with
  | none =>
    match retryLoop env (INT_MAX + 1 - s.monitorProcessId) s.monitorProcessId with
    | none => none
    | some k =>
      let name := env.clipboardMonitorServerName k
      -- new RemoteProcess(this), the three connect calls, and start(name, args)
      let p : RemoteProcess :=
        { name := name, arguments := ["monitor", name], connected := false,
          wired := true, closed := false, deleted := false, written := [] }
      some { s with
        m_ignoreNextItem := true
        heap := s.heap ++ [p]
        m_monitor := some s.heap.length
        monitorProcessId := k
        wnd := { s.wnd with autoUpdate := true } }
  | some _ => some { s with wnd := { s.wnd with autoUpdate := true } }

/-- The function `ClipboardServer::isMonitoring`. -/
def isMonitoring (s : ClipboardServer) : Bool :=
  match s.m_monitor with
  | none => false
  | some i =>
    match s.heap[i]? with
    | some p => p.connected
    | none => false

/-- The function `ClipboardServer::monitorConnectionError`. -/
def monitorConnectionError (env : Env) (s : ClipboardServer) : Option ClipboardServer :=
  startMonitoring env (stopMonitoring s)

/-- The function `ClipboardServer::changeClipboard`. -/
def changeClipboard (env : Env) (s : ClipboardServer) (data : QVariantMap) : ClipboardServer :=
  if !isMonitoring s then s
  else
    let s1 := onMonitor s (fun p => { p with written := p.written ++ [env.serializeData data] })
    { s1 with m_lastHash := env.hash data }

/-- The channel name of the session that `m_monitor` points to. -/
def monitorName (s : ClipboardServer) : Option String :=
  match s.m_monitor with
  | none => none
  | some i => (s.heap[i]?).map RemoteProcess.name

/-- Modelled from the spec: the monitor subprocess connects to the channel of the
current session, after which `RemoteProcess::isConnected` holds (the class
`RemoteProcess` is not among the sources). -/
def monitorConnects (s : ClipboardServer) : ClipboardServer :=
  onMonitor s (fun p => { p with connected := true })

/-- The states the supervisor can reach: from a server that holds no session and
has allocated none, by `startMonitoring`, `stopMonitoring`,
`monitorConnectionError` (each in whatever environment it runs in) and by the
subprocess connecting. -/
inductive Reachable : ClipboardServer → Prop where
  | init (s : ClipboardServer) : s.m_monitor = none → s.heap = [] → Reachable s
  | start (env : Env) (s s' : ClipboardServer) :
      Reachable s → startMonitoring env s = some s' → Reachable s'
  | stop (s : ClipboardServer) : Reachable s → Reachable (stopMonitoring s)
  | error (env : Env) (s s' : ClipboardServer) :
      Reachable s → monitorConnectionError env s = some s' → Reachable s'
  | connects (s : ClipboardServer) : Reachable s → Reachable (monitorConnects s)

/-- Every session other than the one `m_monitor` points to is fully torn down,
and `m_monitor` points into the heap. -/
def SessionInvariant (s : ClipboardServer) : Prop :=
  (∀ i p, s.heap[i]? = some p → s.m_monitor ≠ some i → p.tornDown = true) ∧
  (∀ i, s.m_monitor = some i → i < s.heap.length)

/-- The live sessions among all that were ever allocated. -/
def liveSessions (s : ClipboardServer) : List RemoteProcess :=
  s.heap.filter RemoteProcess.live

/-! ## Change deduplication -/

/-- The window is told about the clipboard: on X11 only when the clipboard mode
is not "selection", otherwise always (the `#ifdef COPYQ_WS_X11` block of
`newMonitorMessage`). -/
def notifyWindow (env : Env) (s : ClipboardServer) (data : QVariantMap) : ClipboardServer :=
  if env.COPYQ_WS_X11 && mapValue data env.mimeClipboardMode == selectionMode then s
  else clipboardChanged s data

/-- The lines of a log message from the monitor, each passed to `log`. -/
def logLines (s : ClipboardServer) (bytes : QByteArray) : ClipboardServer :=
  (bytes.splitOn 10).foldl (fun acc ln => log acc (.line ln .LogNote)) s

/-- The function `ClipboardServer::newMonitorMessage`. -/
def newMonitorMessage (env : Env) (s : ClipboardServer) (message : QByteArray) : ClipboardServer :=
  match env.deserializeData message with
  | none => log s (.text "Failed to read message from monitor." "" .LogError)
  | some data =>
    if mapContains data env.mimeMessage then
      logLines s (mapValue data env.mimeMessage)
    else
      let s1 := notifyWindow env s data
      if s1.m_ignoreNextItem then
        { s1 with m_ignoreNextItem := false, m_lastHash := env.dataHash data }
      else if env.ownsClipboardData data then s1
      else if s1.m_checkclip && !env.isEmpty data && s1.m_lastHash != env.dataHash data then
        let s2 := { s1 with m_lastHash := env.dataHash data }
        if !s2.wnd.storingDisabled then addToTab s2 data else s2
      else s1

/-- Notifications processed one after the other, in arrival order. -/
def processAll (env : Env) (s : ClipboardServer) (messages : List QByteArray) : ClipboardServer :=
  messages.foldl (newMonitorMessage env) s

/-! ## Connection acceptor -/

/-- The function `ClipboardServer::doCommand`. -/
def doCommand (s : ClipboardServer) (args : Arguments) (client : Option Nat) : ClipboardServer :=
  match client with
  | some c =>
    let worker : ScriptableWorker :=
      { args := args, client := some c, deleteWhenFinished := true, terminateOnQuit := true,
        terminateOnDisconnect := true, sendsMessages := true }
    { s with m_clientThreads := s.m_clientThreads ++ [worker] }
  | none =>
    let worker : ScriptableWorker :=
      { args := args, client := none, deleteWhenFinished := true, terminateOnQuit := true,
        terminateOnDisconnect := false, sendsMessages := false }
    { s with m_internalThreads := s.m_internalThreads ++ [worker] }

/-- The function `ClipboardServer::newConnection`, for the pending connection
`client`. -/
def newConnection (env : Env) (s : ClipboardServer) (client : QLocalSocket) : ClipboardServer :=
  match client.incoming with
  | some msg =>
    let args := (env.readArguments msg).1
    doCommand s args (some client.descriptor)
  | none =>
    let s1 := log s (.text "Cannot read message from client! (%1)" client.errorString .LogError)
    { s1 with disposedClients := s1.disposedClients ++ [client.descriptor] }

/-! ## The deduplicator as the specification words it -/

/-- What the deduplicator decided for one Item: the flags afterwards and whether
the Item was forwarded to the history store. -/
structure DedupOutcome where
  ignoreNext : Bool
  lastHash : Nat
  stored : Bool
  deriving DecidableEq, Repr

/-- The four-step algorithm in the words of the specification (section 4.3):
drop and record the hash when `ignoreNext` is set, drop a self-originated item,
drop a duplicate, otherwise record the hash and store unless storing is
disabled. -/
def fourStepSpec (ignoreNext : Bool) (lastHash : Nat) (storingDisabled : Bool)
    (itemHash : Nat) (selfOriginated : Bool) : DedupOutcome :=
  if ignoreNext then { ignoreNext := false, lastHash := itemHash, stored := false }
  else if selfOriginated then { ignoreNext := false, lastHash := lastHash, stored := false }
  else if itemHash = lastHash then { ignoreNext := false, lastHash := lastHash, stored := false }
  else { ignoreNext := false, lastHash := itemHash, stored := !storingDisabled }

/-- What a slot did to the deduplicator, read off the states before (`s`) and
after (`r`) it ran. -/
def dedupOutcome (s r : ClipboardServer) : DedupOutcome :=
  { ignoreNext := r.m_ignoreNextItem, lastHash := r.m_lastHash,
    stored := decide (r.wnd.history ≠ s.wnd.history) }

/-! ## Concrete inputs -/

/-- Big-endian value of the first four bytes, when there are four. -/
def readUInt32 : QByteArray → Option (Nat × QByteArray)
  | a :: b :: c :: d :: rest => some (((a * 256 + b) * 256 + c) * 256 + d, rest)
  | _ => none

/-- Reads `count` byte arrays, each a big-endian length followed by that many
bytes; stops with status not `Ok` when the input ends early. -/
def readByteArrays : Nat → QByteArray → Arguments × Bool
  | 0, _ => ([], true)
  | count + 1, bytes =>
    match readUInt32 bytes with
    | none => ([], false)
    | some (len, rest) =>
      if rest.length < len then ([], false)
      else
        let r := readByteArrays count (rest.drop len)
        (rest.take len :: r.1, r.2)

/-- A decoder of argv payloads in the manner of `QDataStream`: a big-endian
count, then that many length-prefixed byte arrays. -/
def sampleReadArguments (bytes : QByteArray) : Arguments × Bool :=
  match readUInt32 bytes with
  | none => ([], false)
  | some (count, rest) => readByteArrays count rest

/-- A concrete choice of the parameters: messages are plain text, the hash is
the sum of the bytes, every channel name can be removed. -/
def sampleEnv : Env where
  COPYQ_WS_X11 := false
  mimeMessage := "application/x-copyq-message"
  mimeClipboardMode := "application/x-copyq-clipboard-mode"
  deserializeData := fun b => some [("text/plain", b)]
  serializeData := fun m => mapValue m "text/plain"
  hash := fun m => (mapValue m "text/plain").sum
  dataHash := fun m => (mapValue m "text/plain").sum
  isEmpty := fun m => (mapValue m "text/plain").isEmpty
  ownsClipboardData := fun m => mapContains m "application/x-copyq-owner"
  clipboardMonitorServerName := fun k => "copyq_monitor_" ++ toString k
  removeServer := fun _ => true
  readArguments := sampleReadArguments

/-- A window with nothing in it, storing enabled. -/
def emptyWindow : MainWindow :=
  { autoUpdate := false, clipboardChanges := [], storingDisabled := false, history := [] }

/-- The server as its constructor leaves it just before `startMonitoring`. -/
def freshServer : ClipboardServer :=
  { wnd := emptyWindow, heap := [], m_monitor := none, m_checkclip := false, m_lastHash := 0,
    m_ignoreNextItem := true, monitorProcessId := 0, m_clientThreads := [],
    m_internalThreads := [], logged := [], disposedClients := [], sentFrames := [] }

/-- A server past its first notification, with clipboard checking switched off. -/
def uncheckedServer : ClipboardServer :=
  { freshServer with m_ignoreNextItem := false }

/-- A server past its first notification, with clipboard checking switched on. -/
def checkingServer : ClipboardServer :=
  { freshServer with m_ignoreNextItem := false, m_checkclip := true }

/-- A server whose first session, on channel `copyq_monitor_0`, is connected. -/
def connectedServer : ClipboardServer :=
  { checkingServer with
    heap := [{ name := "copyq_monitor_0", arguments := ["monitor", "copyq_monitor_0"],
               connected := true, wired := true, closed := false, deleted := false,
               written := [] }]
    m_monitor := some 0 }

/-- A client whose frame arrived whole but whose payload announces one argument
and then ends. -/
def truncatedClient : QLocalSocket :=
  { descriptor := 7, incoming := some [0, 0, 0, 1], errorString := "" }

/-! ## Command dispatch, results, shortcuts and shutdown -/

/-- The worker that `doCommand` creates for a request: always deleted when
finished and terminated by `terminateClientThreads`; terminated by its client's
`disconnected()` and wired to `sendMessage` only when there is a client. -/
def newWorker (args : Arguments) (client : Option Nat) : ScriptableWorker :=
  { args := args, client := client, deleteWhenFinished := true, terminateOnQuit := true,
    terminateOnDisconnect := client.isSome, sendsMessages := client.isSome }

/-- Requests handed to `doCommand` one after the other: argv and origin
connection (`none` for `NULL`). -/
def dispatchAll (s : ClipboardServer) (requests : List (Arguments × Option Nat)) :
    ClipboardServer :=
  requests.foldl (fun acc r => doCommand acc r.1 r.2) s

/-- Bytes of a C string literal (Latin-1). -/
def latin1 (text : String) : QByteArray :=
  text.data.map Char.toNat

/-- A key sequence. -/
abbrev QKeySequence := String

/-- The values of `Actions::Id` for which `loadSettings` registers global
shortcuts. -/
inductive Actions.Id where
  | Global_ToggleMainWindow
  | Global_ShowTray
  | Global_EditClipboard
  | Global_EditFirstItem
  | Global_CopySecondItem
  | Global_ShowActionDialog
  | Global_CreateItem
  | Global_CopyNextItem
  | Global_CopyPreviousItem
  | Global_PasteAsPlainText
  | Global_DisableClipboardStoring
  | Global_EnableClipboardStoring
  | Global_PasteAndCopyNext
  | Global_PasteAndCopyPrevious
  deriving DecidableEq, Repr

/-- A value stored in the settings map sent to the monitor. -/
inductive QVariant where
  | stringList (items : List String)
  | bool (value : Bool)
  deriving DecidableEq, Repr

/-- Further constants and functions that `clipboardserver.cpp` uses and that are
defined outside the sources at hand (the command status values, the settings
mime type, `createDataMap`, the `QDataStream` encoding of a settings map), and
the build switch `NO_GLOBAL_SHORTCUTS`. They are parameters of the embedding. -/
structure ServerEnv where
  /-- Whether the build defines `NO_GLOBAL_SHORTCUTS`. -/
  NO_GLOBAL_SHORTCUTS : Bool
  /-- The constant `CommandFinished`. -/
  CommandFinished : Int
  /-- The constant `CommandExit`. -/
  CommandExit : Int
  /-- The constant `mimeApplicationSettings`. -/
  mimeApplicationSettings : String
  /-- The bytes that `settingsOut << settings` produces. -/
  writeSettings : List (String × QVariant) → QByteArray
  /-- The function `createDataMap(format, bytes)`. -/
  createDataMap : String → QByteArray → QVariantMap

/-- What the server reads from `ConfigurationManager` (not among the sources):
the formats to save, the options it passes to the monitor, and the key
sequences configured for each action (`tabShortcuts()->shortcuts(id)`). -/
structure ConfigurationManager where
  formatsToSave : List String
  check_clipboard : Bool
  copy_clipboard : Bool
  copy_selection : Bool
  check_selection : Bool
  shortcuts : Actions.Id → List QKeySequence

/-- A `QxtGlobalShortcut` object: its key sequence, whether its `activated`
signal is wired to `shortcutActivated`, whether it was deleted. -/
structure QxtGlobalShortcut where
  shortcut : QKeySequence
  wired : Bool
  deleted : Bool
  deriving DecidableEq, Repr

/-- The `QAction` that `createGlobalShortcut` adds to the window for a global
shortcut; it is deleted when that shortcut object (`owner`) is destroyed. -/
structure QAction where
  shortcut : QKeySequence
  owner : Nat
  deleted : Bool
  deriving DecidableEq, Repr

/-- The server together with the rest of what its slots act on: the global
shortcut objects and their registry `m_shortcutActions` (pointer to script, in
order of insertion), the workers whose `terminate()` slot was invoked, whether
`QCoreApplication::exit()` was called, and the connections made on client
sockets. -/
structure ServerProcess where
  server : ClipboardServer
  /-- Every `QxtGlobalShortcut` ever allocated, in allocation order. -/
  shortcutHeap : List QxtGlobalShortcut
  /-- Every `QAction` created for a global shortcut, in allocation order. -/
  actionHeap : List QAction
  m_shortcutActions : List (Nat × QByteArray)
  /-- Workers whose `terminate()` slot was invoked, oldest first. -/
  terminateRequests : List ScriptableWorker
  /-- Whether `QCoreApplication::exit()` was called. -/
  exitRequested : Bool
  /-- Number of calls of `m_wnd->saveTabs()`. -/
  tabsSaved : Nat
  /-- Number of times the confirmation prompt of `askToQuit` was shown. -/
  promptsShown : Nat
  /-- Clients whose `disconnected()` is connected to their `deleteLater()`. -/
  deleteOnDisconnect : List Nat
  /-- Clients on which `flush()` was called. -/
  flushedClients : List Nat
  /-- Clients whose `destroyed()` is connected to `qApp->quit()`. -/
  quitOnDestroyed : List Nat
  deriving DecidableEq, Repr

/-! ### Results sent to clients -/

/-- The four bytes that `QDataStream` writes for an `int`: big-endian two's
complement. -/
def encodeInt32 (value : Int) : QByteArray :=
  let u := (value % 4294967296).toNat
  [u / 16777216 % 256, u / 65536 % 256, u / 256 % 256, u % 256]

/-- The payload `msg` that `sendMessage` builds:
`out << exitCode; out.writeRawData(message.constData(), message.length());`. -/
def resultPayload (message : QByteArray) (exitCode : Int) : QByteArray :=
  encodeInt32 exitCode ++ message

/-- What `sendMessage` observes on the client socket: whether its state is
`ConnectedState`, and whether `writeMessage` on it succeeds. -/
structure SocketStatus where
  connected : Bool
  writable : Bool
  deriving DecidableEq, Repr

/-- The function `ClipboardServer::sendMessage`. -/
def sendMessage (env : ServerEnv) (st : ServerProcess) (client : Nat) (sock : SocketStatus)
    (message : QByteArray) (exitCode : Int) : ServerProcess :=
  if sock.connected then
    let msg := resultPayload message exitCode
    if !sock.writable then st
    else
      let st1 :=
        { st with server :=
            { st.server with sentFrames := st.server.sentFrames ++ [(client, msg)] } }
      if exitCode = env.CommandFinished then
        { st1 with deleteOnDisconnect := st1.deleteOnDisconnect ++ [client] }
      else if exitCode = env.CommandExit then
        { st1 with
          flushedClients := st1.flushedClients ++ [client]
          quitOnDestroyed := st1.quitOnDestroyed ++ [client] }
      else st1
  else st

/-- Splitting a result payload after four bytes, in the words of the
specification (section 6): a big-endian `int32` exit code, then the output
bytes. -/
def splitResult (payload : QByteArray) : Option (Int × QByteArray) :=
  match payload with
  | a :: b :: c :: d :: rest =>
    let u := ((a * 256 + b) * 256 + c) * 256 + d
    some (if u < 2147483648 then (u : Int) else (u : Int) - 4294967296, rest)
  | _ => none

/-! ### Cancellation and shutdown -/

/-- All workers started on either pool. -/
def allWorkers (s : ClipboardServer) : List ScriptableWorker :=
  s.m_clientThreads ++ s.m_internalThreads

/-- The signal `terminateClientThreads()` is emitted: `terminate()` runs on
every worker connected to it. -/
def emitTerminateClientThreads (st : ServerProcess) : ServerProcess :=
  { st with terminateRequests :=
      st.terminateRequests ++ (allWorkers st.server).filter (fun w => w.terminateOnQuit) }

/-- The client socket `client` emits `disconnected()`: `terminate()` runs on
every worker that `doCommand` connected to that signal, and the socket is handed
to `deleteLater` if `sendMessage` connected it so. -/
def clientDisconnected (st : ServerProcess) (client : Nat) : ServerProcess :=
  let targets := (allWorkers st.server).filter
    (fun w => w.terminateOnDisconnect && w.client == some client)
  let st1 := { st with terminateRequests := st.terminateRequests ++ targets }
  if client ∈ st1.deleteOnDisconnect then
    { st1 with server :=
        { st1.server with disposedClients := st1.server.disposedClients ++ [client] } }
  else st1

/-- What `askToQuit` observes when it runs: the active thread counts of the two
pools, whether the window has a running action, and the answer the user gives
to the confirmation prompt if it is shown ("Exit Anyway"). -/
structure QuitContext where
  activeClientThreads : Nat
  activeInternalThreads : Nat
  hasRunningAction : Bool
  exitAnyway : Bool
  deriving DecidableEq, Repr

/-- The function `ClipboardServer::askToQuit`: its result, and the state with the
prompt counted when it was shown. -/
def askToQuit (st : ServerProcess) (ctx : QuitContext) : Bool × ServerProcess :=
  if decide (ctx.activeClientThreads > 0) || ctx.hasRunningAction then
    (ctx.exitAnyway, { st with promptsShown := st.promptsShown + 1 })
  else (true, st)

/-- The function `ClipboardServer::maybeQuit`. -/
def maybeQuit (st : ServerProcess) (ctx : QuitContext) : ServerProcess :=
  let r := askToQuit st ctx
  if r.1 then { r.2 with exitRequested := true } else r.2

/-- The function `ClipboardServer::onAboutToQuit`; the two `waitForDone(1000)`
calls only wait. -/
def onAboutToQuit (st : ServerProcess) : ServerProcess :=
  let st1 := { st with tabsSaved := st.tabsSaved + 1 }
  let st2 := emitTerminateClientThreads st1
  if isMonitoring st2.server then { st2 with server := stopMonitoring st2.server }
  else st2

/-! ### Configuration of the monitor -/

/-- The settings map that `loadMonitorSettings` fills, entries in the order of
assignment; the three options after `formats` exist on X11 builds only. -/
def monitorSettings (env : Env) (cfg : ConfigurationManager) : List (String × QVariant) :=
  [("formats", QVariant.stringList cfg.formatsToSave)] ++
    (if env.COPYQ_WS_X11 then
      [("copy_clipboard", QVariant.bool cfg.copy_clipboard),
       ("copy_selection", QVariant.bool cfg.copy_selection),
       ("check_selection", QVariant.bool cfg.check_selection)]
    else [])

/-- The message that `loadMonitorSettings` writes to the monitor:
`serializeData(createDataMap(mimeApplicationSettings, settingsData))`. -/
def settingsMessage (env : Env) (senv : ServerEnv) (cfg : ConfigurationManager) : QByteArray :=
  env.serializeData
    (senv.createDataMap senv.mimeApplicationSettings
      (senv.writeSettings (monitorSettings env cfg)))

/-- The function `ClipboardServer::loadMonitorSettings`. -/
def loadMonitorSettings (env : Env) (senv : ServerEnv) (cfg : ConfigurationManager)
    (s : ClipboardServer) : ClipboardServer :=
  if !isMonitoring s then s
  else
    let s1 := { s with m_checkclip := cfg.check_clipboard }
    let s2 := { s1 with m_lastHash := 0 }
    onMonitor s2 (fun p => { p with written := p.written ++ [settingsMessage env senv cfg] })

/-- The messages written so far to the session that `m_monitor` points to. -/
def monitorWritten (s : ClipboardServer) : List QByteArray :=
  match s.m_monitor with
  | none => []
  | some i =>
    match s.heap[i]? with
    | some p => p.written
    | none => []

/-! ### Global shortcuts -/

/-- The script registered for a shortcut object, if any: `QMap::value`. -/
def registryFind (registry : List (Nat × QByteArray)) (key : Nat) : Option QByteArray :=
  (registry.find? (fun e => e.1 == key)).map Prod.snd

/-- The assignment `registry[key] = script` of a `QMap`: the entry for the key is
replaced if there is one and added otherwise. -/
def registrySet (registry : List (Nat × QByteArray)) (key : Nat) (script : QByteArray) :
    List (Nat × QByteArray) :=
  if registry.any (fun e => e.1 == key) then
    registry.map (fun e => if e.1 == key then (key, script) else e)
  else registry ++ [(key, script)]

/-- The statement `delete s` for a global shortcut: the object is gone, and its
`destroyed()` signal hands the action made for it to `deleteLater`. -/
def deleteShortcut (st : ServerProcess) (key : Nat) : ServerProcess :=
  { st with
    shortcutHeap := st.shortcutHeap.modify (fun g => { g with deleted := true, wired := false }) key
    actionHeap := st.actionHeap.map (fun a => if a.owner = key then { a with deleted := true } else a) }

/-- One turn of the loop of `createGlobalShortcut`: a new shortcut object for the
key sequence, wired to `shortcutActivated`, an action for it, and the entry
`m_shortcutActions[s] = script`. -/
def registerShortcut (script : QByteArray) (st : ServerProcess) (shortcut : QKeySequence) :
    ServerProcess :=
  let s := st.shortcutHeap.length
  { st with
    shortcutHeap := st.shortcutHeap ++ [{ shortcut := shortcut, wired := true, deleted := false }]
    actionHeap := st.actionHeap ++ [{ shortcut := shortcut, owner := s, deleted := false }]
    m_shortcutActions := registrySet st.m_shortcutActions s script }

/-- The function `ClipboardServer::createGlobalShortcut`. -/
def createGlobalShortcut (senv : ServerEnv) (cfg : ConfigurationManager) (st : ServerProcess)
    (id : Actions.Id) (script : QByteArray) : ServerProcess :=
  if senv.NO_GLOBAL_SHORTCUTS then st
  else (cfg.shortcuts id).foldl (registerShortcut script) st

/-- The fourteen calls of `createGlobalShortcut` in `loadSettings`, in order:
the action and its script. -/
def globalActions : List (Actions.Id × QByteArray) :=
  [(.Global_ToggleMainWindow, latin1 "toggle()"),
   (.Global_ShowTray, latin1 "menu()"),
   (.Global_EditClipboard, latin1 "edit(-1)"),
   (.Global_EditFirstItem, latin1 "edit(0)"),
   (.Global_CopySecondItem, latin1 "select(1)"),
   (.Global_ShowActionDialog, latin1 "action()"),
   (.Global_CreateItem, latin1 "edit()"),
   (.Global_CopyNextItem, latin1 "next()"),
   (.Global_CopyPreviousItem, latin1 "previous()"),
   (.Global_PasteAsPlainText, latin1 "copy(clipboard()); paste()"),
   (.Global_DisableClipboardStoring, latin1 "disable()"),
   (.Global_EnableClipboardStoring, latin1 "enable()"),
   (.Global_PasteAndCopyNext, latin1 "paste(); next();"),
   (.Global_PasteAndCopyPrevious, latin1 "paste(); previous();")]

/-- The part of `loadSettings` inside `#ifndef NO_GLOBAL_SHORTCUTS`: every
registered shortcut object is deleted, the registry is cleared, and the
shortcuts of the fourteen actions are created. -/
def reloadShortcuts (senv : ServerEnv) (cfg : ConfigurationManager) (st : ServerProcess) :
    ServerProcess :=
  if senv.NO_GLOBAL_SHORTCUTS then st
  else
    let st1 := (st.m_shortcutActions.map Prod.fst).foldl deleteShortcut st
    let st2 := { st1 with m_shortcutActions := [] }
    globalActions.foldl (fun acc a => createGlobalShortcut senv cfg acc a.1 a.2) st2

/-- The function `ClipboardServer::loadSettings`. -/
def loadSettings (env : Env) (senv : ServerEnv) (cfg : ConfigurationManager)
    (st : ServerProcess) : ServerProcess :=
  let st1 := reloadShortcuts senv cfg st
  if isMonitoring st1.server then
    { st1 with server := loadMonitorSettings env senv cfg st1.server }
  else st1

/-- The function `ClipboardServer::shortcutActivated`. Reading
`m_shortcutActions[shortcut]` adds an entry with an empty script when the
shortcut has none. -/
def shortcutActivated (st : ServerProcess) (shortcut : Nat) : ServerProcess :=
  let script := (registryFind st.m_shortcutActions shortcut).getD []
  let registry :=
    if st.m_shortcutActions.any (fun e => e.1 == shortcut) then st.m_shortcutActions
    else st.m_shortcutActions ++ [(shortcut, [])]
  let args : Arguments := [latin1 "eval", script]
  { st with m_shortcutActions := registry, server := doCommand st.server args none }

/-- The key sequence and script of every registry entry, in order. -/
def registeredShortcuts (st : ServerProcess) : List (Option QKeySequence × QByteArray) :=
  st.m_shortcutActions.map
    (fun e => ((st.shortcutHeap[e.1]?).map QxtGlobalShortcut.shortcut, e.2))

/-- What the configuration asks for: for every action in turn, every key
sequence configured for it, with the script of the action. -/
def configuredShortcuts (cfg : ConfigurationManager) : List (Option QKeySequence × QByteArray) :=
  globalActions.flatMap (fun a => (cfg.shortcuts a.1).map (fun k => (some k, a.2)))

/-! ### More concrete inputs -/

/-- A concrete choice of the further parameters: global shortcuts are built in,
`CommandFinished` is 0 and `CommandExit` is 6. -/
def sampleServerEnv : ServerEnv where
  NO_GLOBAL_SHORTCUTS := false
  CommandFinished := 0
  CommandExit := 6
  mimeApplicationSettings := "application/x-copyq-settings"
  writeSettings := fun settings => [settings.length]
  createDataMap := fun format bytes => [(format, bytes)]

/-- The same parameters for a build with `NO_GLOBAL_SHORTCUTS`. -/
def noShortcutsEnv : ServerEnv :=
  { sampleServerEnv with NO_GLOBAL_SHORTCUTS := true }

/-- A configuration with one key sequence for toggling the main window and two
for showing the tray menu. -/
def sampleConfig : ConfigurationManager where
  formatsToSave := ["text/plain"]
  check_clipboard := true
  copy_clipboard := false
  copy_selection := false
  check_selection := false
  shortcuts := fun id =>
    match id with
    | .Global_ToggleMainWindow => ["Ctrl+Alt+T"]
    | .Global_ShowTray => ["Ctrl+Alt+M", "Meta+V"]
    | _ => []

/-- A process around a given server with no shortcuts and nothing pending. -/
def processOf (s : ClipboardServer) : ServerProcess :=
  { server := s, shortcutHeap := [], actionHeap := [], m_shortcutActions := [],
    terminateRequests := [], exitRequested := false, tabsSaved := 0, promptsShown := 0,
    deleteOnDisconnect := [], flushedClients := [], quitOnDestroyed := [] }

/-- A server whose first session was started and is not yet connected. -/
def connectingServer : ClipboardServer :=
  { connectedServer with
    heap := [{ name := "copyq_monitor_0", arguments := ["monitor", "copyq_monitor_0"],
               connected := false, wired := true, closed := false, deleted := false,
               written := [] }] }

/-- Only an internal worker is active, and the user would decline. -/
def internalBusy : QuitContext :=
  { activeClientThreads := 0, activeInternalThreads := 1, hasRunningAction := false,
    exitAnyway := false }

/-- A client worker is active, and the user declines. -/
def clientBusyDeclined : QuitContext :=
  { activeClientThreads := 1, activeInternalThreads := 0, hasRunningAction := false,
    exitAnyway := false }

/-- The registry is well formed above `base`: every key is a shortcut object
allocated at index `base` or later, no key occurs twice, the objects below
`base` are those of `old`, and the key sequences and scripts of the entries are
`entries`. -/
def RegistryInvariant (base : Nat) (old : List QxtGlobalShortcut) (st : ServerProcess)
    (entries : List (Option QKeySequence × QByteArray)) : Prop :=
  (∀ e ∈ st.m_shortcutActions, base ≤ e.1 ∧ e.1 < st.shortcutHeap.length) ∧
  (st.m_shortcutActions.map Prod.fst).Nodup ∧
  registeredShortcuts st = entries ∧
  old.length = base ∧
  ∃ fresh, st.shortcutHeap = old ++ fresh

/-! ## The tab dialog (`gui/tabdialog.cpp`) -/

/-- A `QString`, one character per code unit. -/
abbrev QString := List Char

/-- The function `QString::startsWith`. -/
def startsWith : QString → QString → Bool
  | _, [] => true
  | [], _ :: _ => false
  | c :: s, d :: p => decide (c = d) && startsWith s p

/-- The function `QString::mid(position)`: the string from `position` on. -/
def mid (s : QString) (position : Nat) : QString :=
  s.drop position

/-- The members of `TabDialog` that `validate` reads and writes: the text of the
line edit, the group name, the existing tabs, and whether the OK button is
enabled. -/
structure TabDialog where
  lineEditTabName : QString
  m_tabGroupName : QString
  m_tabs : List QString
  okEnabled : Bool
  deriving DecidableEq, Repr

/-- Whether a tab belongs to the group: `tab == m_tabGroupName ||
tab.startsWith(tabPrefix)` with `tabPrefix = m_tabGroupName + '/'`. -/
def inTabGroup (group tab : QString) : Bool :=
  decide (tab = group) || startsWith tab (group ++ ['/'])

/-- The `foreach` loop of `TabDialog::validate` in group-rename mode, over the
tabs still to visit; the result is the value of `ok` after the loop. -/
def validateGroup (text group : QString) (tabs : List QString) : List QString → Bool
  | [] => true
  | tab :: rest =>
    if inTabGroup group tab then
      let newName := text ++ mid tab group.length
      if newName.isEmpty || tabs.contains newName then false
      else validateGroup text group tabs rest
    else validateGroup text group tabs rest

/-- The function `TabDialog::validate`. -/
def TabDialog.validate (d : TabDialog) : TabDialog :=
  let text := d.lineEditTabName
  let ok :=
    if d.m_tabGroupName.isEmpty then !text.isEmpty && !d.m_tabs.contains text
    else validateGroup text d.m_tabGroupName d.m_tabs d.m_tabs
  { d with okEnabled := ok }

/-- The function `TabDialog::setTabs`. -/
def TabDialog.setTabs (d : TabDialog) (tabs : List QString) : TabDialog :=
  ({ d with m_tabs := tabs }).validate

/-- The renaming of a tab group in the words of the claim: every tab that equals
the group name or starts with the group name and a slash has its leading group
name replaced by the new text; the other tabs stay. -/
def renameGroup (group text : QString) (tabs : List QString) : List QString :=
  tabs.map (fun tab => if inTabGroup group tab then text ++ tab.drop group.length else tab)

/-! ## The item delegate (`item/itemdelegate.cpp`) -/

/-- An entry of `m_cache`: a pointer to an `ItemWidget`, `none` for `NULL`. -/
abbrev ItemWidgetPtr := Option Nat

/-- The function `QList::insert(i, value)`: the value ends up at index `i`, at
the end when `i` is beyond the size. -/
def qInsert {α : Type} (l : List α) (i : Nat) (value : α) : List α :=
  l.take i ++ value :: l.drop i

/-- The function `QList::move(from, to)`: the item at `from` is taken out and
put back at index `to`. -/
def qMove {α : Type} (l : List α) (source target : Nat) : List α :=
  match l[source]? with
  | none => l
  | some x => qInsert (l.eraseIdx source) target x

/-- The loop of `ItemDelegate::rowsInserted`, `count` turns from row `i` on. -/
def insertRowsLoop (cache : List ItemWidgetPtr) : Nat → Nat → List ItemWidgetPtr
  | 0, _ => cache
  | count + 1, i => insertRowsLoop (qInsert cache i none) count (i + 1)

/-- The function `ItemDelegate::rowsInserted`. -/
def rowsInserted (cache : List ItemWidgetPtr) (start finish : Nat) : List ItemWidgetPtr :=
  insertRowsLoop cache (finish + 1 - start) start

/-- The loop of `ItemDelegate::rowsRemoved`, `count` turns downwards from row
`start + count - 1` to row `start`. -/
def removeRowsLoop (cache : List ItemWidgetPtr) (start : Nat) : Nat → List ItemWidgetPtr
  | 0 => cache
  | count + 1 => removeRowsLoop (cache.eraseIdx (start + count)) start count

/-- The function `ItemDelegate::rowsRemoved`. -/
def rowsRemoved (cache : List ItemWidgetPtr) (start finish : Nat) : List ItemWidgetPtr :=
  removeRowsLoop cache start (finish + 1 - start)

/-- The loop of `ItemDelegate::rowsMoved`, `count` turns from source row `i` on
with the current value of `dest`. -/
def moveRowsLoop {α : Type} (cache : List α) : Nat → Nat → Nat → List α
  | 0, _, _ => cache
  | count + 1, i, dest => moveRowsLoop (qMove cache i dest) count (i + 1) (dest + 1)

/-- The function `ItemDelegate::rowsMoved`. -/
def rowsMoved {α : Type} (cache : List α) (sourceStart sourceEnd destinationRow : Nat) :
    List α :=
  let dest := if sourceStart < destinationRow then destinationRow - 1 else destinationRow
  moveRowsLoop cache (sourceEnd + 1 - sourceStart) sourceStart dest

/-- The row-move semantics of the model in the words of the claim: the block of
rows `sourceStart..sourceEnd` is taken out and put back, in its order, before the
element that was at `destinationRow`. -/
def moveBlock {α : Type} (l : List α) (sourceStart sourceEnd destinationRow : Nat) : List α :=
  let block := (l.drop sourceStart).take (sourceEnd + 1 - sourceStart)
  if destinationRow ≤ sourceStart then
    l.take destinationRow ++ block ++
      (l.drop destinationRow).take (sourceStart - destinationRow) ++ l.drop (sourceEnd + 1)
  else
    l.take sourceStart ++ (l.drop (sourceEnd + 1)).take (destinationRow - (sourceEnd + 1)) ++
      block ++ l.drop destinationRow

/-- Whether `ItemDelegate::paint` sets the `Alternate` feature for a row, given
the size of the cache: it clears it when `(m_cache.size() & 1) == (row & 1)` and
sets it otherwise. -/
def alternate (cacheSize row : Nat) : Bool :=
  !((cacheSize &&& 1) == (row &&& 1))

/-- What `ItemDelegate::paint` decides for a row: nothing when the cache has no
widget for it, otherwise the widget it paints and the `Alternate` feature. -/
def paintBackground (cache : List ItemWidgetPtr) (row : Nat) : Option (Nat × Bool) :=
  match cache[row]? with
  | some (some w) => some (w, alternate cache.length row)
  | _ => none

/-! ## The external editor (`item/itemeditor.cpp`) -/

/-- What the editor finds when it looks at its temporary file: the modification
time and, if the file can be opened, its contents. -/
structure FileState where
  lastModified : Nat
  contents : Option QByteArray
  deriving DecidableEq, Repr

/-- The members of `ItemEditor` that the timer touches, with the data emitted by
the signal `fileModified` (oldest first) and the number of errors printed. -/
structure ItemEditor where
  m_data : QByteArray
  m_hash : Nat
  m_lastmodified : Nat
  m_modified : Bool
  emitted : List QByteArray
  errors : Nat
  deriving DecidableEq, Repr

/-- The function `ItemEditor::fileModified()`: its result and the editor
afterwards. The hash function `qHash` is a parameter. -/
def ItemEditor.fileModified (qHash : QByteArray → Nat) (e : ItemEditor) (file : FileState) :
    Bool × ItemEditor :=
  if e.m_lastmodified != file.lastModified then
    let e1 := { e with m_lastmodified := file.lastModified }
    let e2 :=
      match file.contents with
      | some bytes => { e1 with m_data := bytes }
      | none => { e1 with errors := e1.errors + 1 }
    let newhash := qHash e2.m_data
    (newhash != e2.m_hash, e2)
  else (false, e)

/-- The function `ItemEditor::onTimer`. -/
def ItemEditor.onTimer (qHash : QByteArray → Nat) (e : ItemEditor) (file : FileState) :
    ItemEditor :=
  if e.m_modified then
    let r := e.fileModified qHash file
    if !r.1 then
      let e1 := { r.2 with m_modified := false }
      let e2 := { e1 with emitted := e1.emitted ++ [e1.m_data] }
      { e2 with m_hash := qHash e2.m_data }
    else r.2
  else
    let r := e.fileModified qHash file
    { r.2 with m_modified := r.1 }

/-! ### Concrete dialogs -/

/-- A group-rename dialog for the group `g` with the tabs `g/x` and `a`, in
which the user entered `a`. -/
def groupDialog : TabDialog :=
  { lineEditTabName := "a".data, m_tabGroupName := "g".data,
    m_tabs := ["g/x".data, "a".data], okEnabled := false }

/-- A group-rename dialog for the group `g` with the tabs `g`, `g/x` and `a`, in
which the user entered `h`. -/
def renameDialog : TabDialog :=
  { lineEditTabName := "h".data, m_tabGroupName := "g".data,
    m_tabs := ["g".data, "g/x".data, "a".data], okEnabled := false }

/-- A cache of five widgets, numbered by their rows. -/
def fiveWidgets : List ItemWidgetPtr := [some 0, some 1, some 2, some 3, some 4]

/-! ## The encrypted tab loader (`plugins/itemencrypted/itemencrypted.cpp`) -/

/-- The function `QString::remove(QChar)`: every occurrence is deleted. -/
def removeChar (s : QString) (c : Char) : QString :=
  s.filter (fun x => x != c)

/-- The function `QString::lastIndexOf(QChar)`: the index of the last
occurrence, or -1. -/
def lastIndexOf : QString → Char → Int
  | [], _ => -1
  | x :: xs, c =>
    let later := lastIndexOf xs c
    if 0 ≤ later then later + 1 else if x = c then 0 else -1

/-- The function `QString::remove(0, n)`: the first `n` characters are deleted. -/
def removeFront (s : QString) (n : Int) : QString :=
  s.drop n.toNat

/-- The function `ItemEncryptedLoader::canSaveItems`: the `foreach` loop over the
names in the `encrypt_tabs` setting, for the model's tab name. -/
def canSaveItems : List QString → QString → Bool
  | [], _ => false
  | encryptTabName :: rest, tabName =>
    let tabName1 := if !encryptTabName.contains '&' then removeChar tabName '&' else tabName
    let tabName2 :=
      if !encryptTabName.contains '/' then
        removeFront tabName1 (lastIndexOf tabName1 '/' + 1)
      else tabName1
    if tabName2 == encryptTabName then true else canSaveItems rest tabName

/-- What is left of a string after dropping everything up to and including the
last occurrence of a character (the whole string when there is none). -/
def afterLast (c : Char) (s : QString) : QString :=
  (s.reverse.takeWhile (fun x => x != c)).reverse

/-- The tab name as the claim compares it with an entry `p` of `encrypt_tabs`:
every `&` deleted when `p` contains none, and everything up to and including
the last `/` dropped when `p` contains none. -/
def comparedTabName (p tabName : QString) : QString :=
  let t := if '&' ∈ p then tabName else tabName.filter (fun x => x != '&')
  if '/' ∈ p then t else afterLast '/' t

/-- The model that `loadItems` fills: its rows and its property `maxItems`. -/
structure ItemModel where
  rows : List QVariantMap
  maxItems : Int
  deriving DecidableEq, Repr

/-- The decrypted bytes as `stream2` reads them: the stored item count (`none`
when it cannot be read) and the items that follow it. -/
structure DecryptedStream where
  count : Option Nat
  items : List QVariantMap
  deriving DecidableEq, Repr

/-- The number of values of a `quint64`. -/
def UINT64 : Nat := 18446744073709551616

/-- The call `model->insertRow(i)` of a list model: an empty row at `i`, refused
when `i` is beyond the end. -/
def ItemModel.insertRow (m : ItemModel) (i : Nat) : Option ItemModel :=
  if i ≤ m.rows.length then some { m with rows := m.rows.take i ++ [] :: m.rows.drop i }
  else none

/-- The call `model->setData(model->index(i, 0), dataMap, contentType::data)`. -/
def ItemModel.setData (m : ItemModel) (i : Nat) (dataMap : QVariantMap) : ItemModel :=
  { m with rows := m.rows.set i dataMap }

/-- The `for` loop of `loadItems` from counter `i` on, over the items still in
the stream, and the `return` after it: the result of `loadItems` and the model.
Reading past the end of the stream leaves an empty map and a status that is not
`Ok`, which ends the loop and makes the function return false. -/
def loadLoop (length : Nat) : List QVariantMap → Nat → ItemModel → Bool × ItemModel
  | [], i, m =>
    if i < length then
      match m.insertRow i with
      | none => (false, m)
      | some m1 => (false, m1.setData i [])
    else (true, m)
  | dataMap :: rest, i, m =>
    if i < length then
      match m.insertRow i with
      | none => (false, m)
      | some m1 => loadLoop length rest (i + 1) (m1.setData i dataMap)
    else (true, m)

/-- The function `ItemEncryptedLoader::loadItems` from the point where the
decrypted bytes are read (`QDataStream stream2(bytes)`): `maxItems` and `length`
are `quint64`, so the `int` property and the subtraction wrap modulo 2^64. -/
def loadItems (m : ItemModel) (stream : DecryptedStream) : Bool × ItemModel :=
  let maxItems : Nat := (m.maxItems % (UINT64 : Int)).toNat
  match stream.count with
  | none => (false, m)
  | some length =>
    if length = 0 then (false, m)
    else
      let length1 := (min length maxItems + UINT64 - m.rows.length % UINT64) % UINT64
      loadLoop length1 stream.items 0 m

/-- The bound of the claim on the number of inserted rows:
`max(0, min(storedCount, maxItems) - rowCount)`. -/
def claimedInsertBound (storedCount maxItems rowCount : Int) : Int :=
  max 0 (min storedCount maxItems - rowCount)

/-! ### Concrete inputs for the loader and the deduplicator -/

/-- A model of two rows whose `maxItems` is 3. -/
def twoRowModel : ItemModel :=
  { rows := [[("text/plain", [1])], [("text/plain", [2])]], maxItems := 3 }

/-- A decrypted stream that stores one item. -/
def oneItemStream : DecryptedStream :=
  { count := some 1, items := [[("text/plain", [9])]] }

/-- The user switches clipboard storing off or on (`disable()`, `enable()`). -/
def setStoringDisabled (s : ClipboardServer) (disabled : Bool) : ClipboardServer :=
  { s with wnd := { s.wnd with storingDisabled := disabled } }

/-- A connected, checking server that has stored the text `hi` as its last
item. -/
def storedOnceServer : ClipboardServer :=
  newMonitorMessage sampleEnv connectedServer [104, 105]


end CopyQ

/-! ## Theorems -/

namespace CopyQ

/-! ### Helper lemmas on single steps -/

theorem logLines_fields (s : ClipboardServer) (bytes : QByteArray) :
    (logLines s bytes).wnd = s.wnd ∧
    (logLines s bytes).m_ignoreNextItem = s.m_ignoreNextItem ∧
    (logLines s bytes).m_lastHash = s.m_lastHash ∧
    (logLines s bytes).m_checkclip = s.m_checkclip := by
  unfold logLines
  generalize bytes.splitOn 10 = ls
  induction ls generalizing s with
  | nil => simp
  | cons l ls ih =>
    simp only [List.foldl_cons]
    obtain ⟨h1, h2, h3, h4⟩ := ih (log s (.line l .LogNote))
    exact ⟨h1, h2, h3, h4⟩

theorem notifyWindow_fields (env : Env) (s : ClipboardServer) (data : QVariantMap) :
    (notifyWindow env s data).wnd.history = s.wnd.history ∧
    (notifyWindow env s data).wnd.storingDisabled = s.wnd.storingDisabled ∧
    (notifyWindow env s data).m_ignoreNextItem = s.m_ignoreNextItem ∧
    (notifyWindow env s data).m_lastHash = s.m_lastHash ∧
    (notifyWindow env s data).m_checkclip = s.m_checkclip := by
  unfold notifyWindow clipboardChanged
  split <;> simp

/-- The body of `newMonitorMessage` for a message that decodes to clipboard data
and is not a log message. -/
theorem newMonitorMessage_item (env : Env) (s : ClipboardServer) (message : QByteArray)
    (data : QVariantMap) (hdec : env.deserializeData message = some data)
    (hmsg : mapContains data env.mimeMessage = false) :
    newMonitorMessage env s message =
      if s.m_ignoreNextItem then
        { notifyWindow env s data with m_ignoreNextItem := false, m_lastHash := env.dataHash data }
      else if env.ownsClipboardData data then notifyWindow env s data
      else if s.m_checkclip && !env.isEmpty data && s.m_lastHash != env.dataHash data then
        if !s.wnd.storingDisabled then
          addToTab { notifyWindow env s data with m_lastHash := env.dataHash data } data
        else { notifyWindow env s data with m_lastHash := env.dataHash data }
      else notifyWindow env s data := by
  obtain ⟨_, h2, h3, h4, h5⟩ := notifyWindow_fields env s data
  simp only [newMonitorMessage, hdec, hmsg, h2, h3, h4, h5]
  rfl

/-- C1 (as stated, refuted): with clipboard checking switched off, a fresh,
foreign item with a new hash is neither recorded nor stored, while the four-step
algorithm of the specification records its hash and stores it. -/
theorem newMonitorMessage_not_four_step :
    dedupOutcome uncheckedServer (newMonitorMessage sampleEnv uncheckedServer [104, 105]) ≠
      fourStepSpec uncheckedServer.m_ignoreNextItem uncheckedServer.m_lastHash
        uncheckedServer.wnd.storingDisabled (sampleEnv.dataHash [("text/plain", [104, 105])])
        (sampleEnv.ownsClipboardData [("text/plain", [104, 105])]) := by
  decide

/-- C1 (amended): for a message that decodes to clipboard data and is not a log
message, `newMonitorMessage` is the four-way branch whose third step also drops
the item when clipboard checking is off or the item is empty: (1) with
`ignoreNext` set it is cleared and the hash recorded; (2) else a self-originated
item changes nothing; (3) else, when checking is off, the item is empty or its
hash equals `lastHash`, nothing changes; (4) otherwise the hash is recorded and
the item is added to the history exactly when storing is not disabled. In every
branch the window is first told about the clipboard (`notifyWindow`). -/
theorem newMonitorMessage_four_way (env : Env) (s : ClipboardServer) (message : QByteArray)
    (data : QVariantMap) (hdec : env.deserializeData message = some data)
    (hmsg : mapContains data env.mimeMessage = false) :
    (s.m_ignoreNextItem = true →
      newMonitorMessage env s message =
        { notifyWindow env s data with
          m_ignoreNextItem := false, m_lastHash := env.dataHash data }) ∧
    (s.m_ignoreNextItem = false → env.ownsClipboardData data = true →
      newMonitorMessage env s message = notifyWindow env s data) ∧
    (s.m_ignoreNextItem = false → env.ownsClipboardData data = false →
      (s.m_checkclip = false ∨ env.isEmpty data = true ∨ env.dataHash data = s.m_lastHash) →
      newMonitorMessage env s message = notifyWindow env s data) ∧
    (s.m_ignoreNextItem = false → env.ownsClipboardData data = false →
      s.m_checkclip = true → env.isEmpty data = false → env.dataHash data ≠ s.m_lastHash →
      (s.wnd.storingDisabled = false →
        newMonitorMessage env s message =
          addToTab { notifyWindow env s data with m_lastHash := env.dataHash data } data) ∧
      (s.wnd.storingDisabled = true →
        newMonitorMessage env s message =
          { notifyWindow env s data with m_lastHash := env.dataHash data })) := by
  rw [newMonitorMessage_item env s message data hdec hmsg]
  refine ⟨?_, ?_, ?_, ?_⟩
  · intro h; simp [h]
  · intro h1 h2; simp [h1, h2]
  · intro h1 h2 h3
    rcases h3 with h3 | h3 | h3 <;> simp [h1, h2, h3]
  · intro h1 h2 h3 h4 h5
    have h5' : s.m_lastHash ≠ env.dataHash data := fun h => h5 h.symm
    constructor <;> intro h6 <;> simp [h1, h2, h3, h4, h5', h6]

/-- C1 (amended), at a concrete input: with checking on, a new non-empty foreign
item is recorded and stored. -/
theorem newMonitorMessage_four_way_witness :
    newMonitorMessage sampleEnv checkingServer [104, 105] =
      addToTab { notifyWindow sampleEnv checkingServer [("text/plain", [104, 105])] with
        m_lastHash := sampleEnv.dataHash [("text/plain", [104, 105])] }
        [("text/plain", [104, 105])] :=
  ((newMonitorMessage_four_way sampleEnv checkingServer [104, 105] [("text/plain", [104, 105])]
    rfl (by decide)).2.2.2 rfl (by decide) rfl (by decide) (by decide)).1 rfl

/-! ### Sequences of notifications -/

/-- What one notification does to the history and the deduplicator: either the
history is untouched (and, once `ignoreNext` is clear, so is `lastHash` unless
storing is disabled), or exactly one item with a hash different from `lastHash`
was appended and its hash recorded. The settings never change. -/
theorem newMonitorMessage_step (env : Env) (s : ClipboardServer) (message : QByteArray) :
    (newMonitorMessage env s message).wnd.storingDisabled = s.wnd.storingDisabled ∧
    (((newMonitorMessage env s message).wnd.history = s.wnd.history ∧
        (s.m_ignoreNextItem = false →
          (newMonitorMessage env s message).m_ignoreNextItem = false ∧
          ((newMonitorMessage env s message).m_lastHash = s.m_lastHash ∨
            s.wnd.storingDisabled = true))) ∨
      (∃ d, (newMonitorMessage env s message).wnd.history = s.wnd.history ++ [d] ∧
        s.m_ignoreNextItem = false ∧ s.wnd.storingDisabled = false ∧
        (newMonitorMessage env s message).m_ignoreNextItem = false ∧
        (newMonitorMessage env s message).m_lastHash = env.dataHash d ∧
        s.m_lastHash ≠ env.dataHash d)) := by
  cases hdec : env.deserializeData message with
  | none =>
    simp [newMonitorMessage, hdec, log]
  | some data =>
    cases hmsg : mapContains data env.mimeMessage with
    | true =>
      obtain ⟨h1, h2, h3, _⟩ := logLines_fields s (mapValue data env.mimeMessage)
      simp [newMonitorMessage, hdec, hmsg, h1, h2, h3]
    | false =>
      obtain ⟨g1, g2, g3, g4, _⟩ := notifyWindow_fields env s data
      rw [newMonitorMessage_item env s message data hdec hmsg]
      by_cases hi : s.m_ignoreNextItem = true
      · simp [hi, g1, g2]
      · have hi' : s.m_ignoreNextItem = false := by simpa using hi
        by_cases ho : env.ownsClipboardData data = true
        · simp [hi', ho, g1, g2, g3, g4]
        · have ho' : env.ownsClipboardData data = false := by simpa using ho
          by_cases hc : (s.m_checkclip && !env.isEmpty data &&
              s.m_lastHash != env.dataHash data) = true
          · have hne : s.m_lastHash ≠ env.dataHash data := by
              simp only [Bool.and_eq_true, bne_iff_ne] at hc
              exact hc.2
            by_cases hd : s.wnd.storingDisabled = true
            · simp [hi', ho', hc, hd, g1, g2, g3]
            · have hd' : s.wnd.storingDisabled = false := by simpa using hd
              refine ⟨?_, Or.inr ⟨data, ?_⟩⟩
              · simp [hi', ho', hc, hd', addToTab, g2]
              · simp [hi', ho', hc, hd', addToTab, g1, g3, hne]
          · simp [hi', ho', hc, g1, g2, g3, g4]

/-- The history only grows by appending, and what a run of notifications appends
has no two neighbours of equal hash; the first appended item, if any, differs in
hash from `lastHash` once `ignoreNext` is clear. -/
theorem processAll_forwarded (env : Env) (messages : List QByteArray) :
    ∀ s : ClipboardServer, ∃ l : List QVariantMap,
      (processAll env s messages).wnd.history = s.wnd.history ++ l ∧
      List.Chain' (fun a b => env.dataHash a ≠ env.dataHash b) l ∧
      (s.wnd.storingDisabled = true → l = []) ∧
      (s.m_ignoreNextItem = false → ∀ d ∈ l.head?, s.m_lastHash ≠ env.dataHash d) := by
  induction messages with
  | nil => intro s; exact ⟨[], by simp [processAll], List.chain'_nil, fun _ => rfl, by simp⟩
  | cons m ms ih =>
    intro s
    obtain ⟨l, hl, hchain, hdis, hhead⟩ := ih (newMonitorMessage env s m)
    have hrun : processAll env s (m :: ms) = processAll env (newMonitorMessage env s m) ms := rfl
    obtain ⟨hsd, hstep⟩ := newMonitorMessage_step env s m
    rcases hstep with ⟨hh, hflags⟩ | ⟨d, hh, hi, hd, hri, hrl, hne⟩
    · refine ⟨l, by rw [hrun, hl, hh], hchain, fun h => hdis (hsd.trans h), ?_⟩
      intro hi d hdmem
      obtain ⟨hri, hrl⟩ := hflags hi
      rcases hrl with hrl | hrl
      · rw [← hrl]; exact hhead hri d hdmem
      · rw [hdis (hsd.trans hrl)] at hdmem; simp at hdmem
    · refine ⟨d :: l, by rw [hrun, hl, hh]; simp, ?_, ?_, ?_⟩
      · rw [List.chain'_cons']
        refine ⟨fun y hy => ?_, hchain⟩
        rw [← hrl]; exact hhead hri y hy
      · intro h; rw [hd] at h; cases h
      · intro _ x hx
        simp only [List.head?_cons, Option.mem_def, Option.some.injEq] at hx
        rw [← hx]; exact hne

/-- C2: whatever the initial state and whatever the sequence of notifications,
the items that `newMonitorMessage` adds to the history during the run (the
history beyond its initial length) never contain two neighbours of equal hash. -/
theorem no_two_consecutive_forwarded_equal_hash (env : Env) (s : ClipboardServer)
    (messages : List QByteArray) :
    List.Chain' (fun a b => env.dataHash a ≠ env.dataHash b)
      ((processAll env s messages).wnd.history.drop s.wnd.history.length) := by
  obtain ⟨l, hl, hchain, _, _⟩ := processAll_forwarded env messages s
  rw [hl, List.drop_left]
  exact hchain

/-! ### Starting and stopping the monitor -/

theorem stopMonitoring_no_session (s : ClipboardServer) : (stopMonitoring s).m_monitor = none := by
  unfold stopMonitoring
  cases h : s.m_monitor <;> simp [h, log]

theorem startMonitoring_creates (env : Env) (s s' : ClipboardServer)
    (hnone : s.m_monitor = none) (hstart : startMonitoring env s = some s') :
    ∃ k, retryLoop env (INT_MAX + 1 - s.monitorProcessId) s.monitorProcessId = some k ∧
      s' = { s with
        m_ignoreNextItem := true
        heap := s.heap ++ [{ name := env.clipboardMonitorServerName k,
                             arguments := ["monitor", env.clipboardMonitorServerName k],
                             connected := false, wired := true, closed := false,
                             deleted := false, written := [] }]
        m_monitor := some s.heap.length
        monitorProcessId := k
        wnd := { s.wnd with autoUpdate := true } } := by
  unfold startMonitoring at hstart
  rw [hnone] at hstart
  cases hk : retryLoop env (INT_MAX + 1 - s.monitorProcessId) s.monitorProcessId with
  | none => simp [hk] at hstart
  | some k =>
    refine ⟨k, rfl, ?_⟩
    simp only [hk, Option.some.injEq] at hstart
    exact hstart.symm

/-- C3: when `startMonitoring` creates a session (no session existed), and
likewise after the restart done by `monitorConnectionError`, `ignoreNext` is
set; and in any state in which it is set as there, whatever `lastHash` and the
other flags are, a clipboard notification is not added to the history: it only
clears `ignoreNext` and records its hash (the window is told about the
clipboard, as for every notification). -/
theorem first_notification_after_start_dropped (env : Env) (s s' : ClipboardServer)
    (hstart : (s.m_monitor = none ∧ startMonitoring env s = some s') ∨
      monitorConnectionError env s = some s') :
    s'.m_ignoreNextItem = true ∧
    ∀ (t : ClipboardServer) (message : QByteArray) (data : QVariantMap),
      t.m_ignoreNextItem = s'.m_ignoreNextItem →
      env.deserializeData message = some data →
      mapContains data env.mimeMessage = false →
      newMonitorMessage env t message =
        { notifyWindow env t data with
          m_ignoreNextItem := false, m_lastHash := env.dataHash data } ∧
      (newMonitorMessage env t message).wnd.history = t.wnd.history := by
  have hflag : s'.m_ignoreNextItem = true := by
    rcases hstart with ⟨hnone, hs⟩ | hs
    · obtain ⟨k, _, rfl⟩ := startMonitoring_creates env s s' hnone hs
      rfl
    · obtain ⟨k, _, h⟩ :=
        startMonitoring_creates env (stopMonitoring s) s' (stopMonitoring_no_session s) hs
      rw [h]
  refine ⟨hflag, fun t message data ht hdec hmsg => ?_⟩
  rw [hflag] at ht
  rw [newMonitorMessage_item env t message data hdec hmsg]
  simp [ht, (notifyWindow_fields env t data).1]

/-- C3 at a concrete input: the server starts its first session. -/
theorem first_notification_after_start_dropped_witness :
    ∃ s' : ClipboardServer, startMonitoring sampleEnv freshServer = some s' ∧
      s'.m_ignoreNextItem = true :=
  ⟨_, rfl, (first_notification_after_start_dropped sampleEnv freshServer _
    (Or.inl ⟨rfl, rfl⟩)).1⟩

/-! ### Echoes and repetitions -/

theorem changeClipboard_fields (env : Env) (s : ClipboardServer) (d : QVariantMap)
    (hmon : isMonitoring s = true) :
    (changeClipboard env s d).m_lastHash = env.hash d ∧
    (changeClipboard env s d).wnd = s.wnd ∧
    (changeClipboard env s d).m_ignoreNextItem = s.m_ignoreNextItem ∧
    (changeClipboard env s d).m_checkclip = s.m_checkclip := by
  unfold changeClipboard onMonitor
  cases h : s.m_monitor <;> simp [hmon, h]

/-- A notification leaves the history alone when `ignoreNext` is set, when it is
self-originated, when its hash is `lastHash`, when checking is off or when the
item is empty; no condition on the kind of message. -/
theorem newMonitorMessage_dropped (env : Env) (s : ClipboardServer) (message : QByteArray)
    (h : ∀ data, env.deserializeData message = some data →
      s.m_ignoreNextItem = true ∨ env.ownsClipboardData data = true ∨
        env.dataHash data = s.m_lastHash ∨ s.m_checkclip = false ∨ env.isEmpty data = true) :
    (newMonitorMessage env s message).wnd.history = s.wnd.history := by
  obtain ⟨_, hstep⟩ := newMonitorMessage_step env s message
  rcases hstep with ⟨hh, _⟩ | ⟨d, hh, hi, hd, _, hrl, hne⟩
  · exact hh
  · exfalso
    cases hdec : env.deserializeData message with
    | none => simp [newMonitorMessage, hdec, log] at hh
    | some data =>
      cases hmsg : mapContains data env.mimeMessage with
      | true =>
        have := (logLines_fields s (mapValue data env.mimeMessage)).1
        simp [newMonitorMessage, hdec, hmsg, this] at hh
      | false =>
        obtain ⟨g1, g2, g3, g4, _⟩ := notifyWindow_fields env s data
        rw [newMonitorMessage_item env s message data hdec hmsg] at hh hrl
        rcases h data hdec with h1 | h1 | h1 | h1 | h1
        · simp [h1] at hi
        · simp [hi, h1, g1] at hh
        · have hb : (s.m_lastHash != env.dataHash data) = false := by simp [h1]
          simp [hi, hb, g1] at hh
        · simp [hi, h1, g1] at hh
        · simp [hi, h1, g1] at hh

/-- C4: after `changeClipboard d` on a connected session, a following
notification whose hash is the hash of the pushed content `d`, or which carries
the ownership marker, is not added to the history; the push itself adds nothing
either. -/
theorem echo_of_pushed_clipboard_not_stored (env : Env) (s : ClipboardServer) (d : QVariantMap)
    (message : QByteArray) (data : QVariantMap) (hmon : isMonitoring s = true)
    (hdec : env.deserializeData message = some data)
    (hecho : env.ownsClipboardData data = true ∨ env.dataHash data = env.hash d) :
    (newMonitorMessage env (changeClipboard env s d) message).wnd.history = s.wnd.history ∧
    (changeClipboard env s d).wnd.history = s.wnd.history := by
  obtain ⟨h1, h2, _, _⟩ := changeClipboard_fields env s d hmon
  have hkeep : (changeClipboard env s d).wnd.history = s.wnd.history := by rw [h2]
  refine ⟨?_, hkeep⟩
  rw [← hkeep]
  apply newMonitorMessage_dropped
  intro data' hdec'
  rw [hdec] at hdec'
  cases hdec'
  rcases hecho with h | h
  · exact Or.inr (Or.inl h)
  · exact Or.inr (Or.inr (Or.inl (by rw [h1]; exact h)))

/-- C4 at a concrete input: the monitor echoes the pushed text back. -/
theorem echo_of_pushed_clipboard_not_stored_witness :
    (newMonitorMessage sampleEnv
        (changeClipboard sampleEnv connectedServer [("text/plain", [104, 105])])
        [104, 105]).wnd.history = connectedServer.wnd.history ∧
    (changeClipboard sampleEnv connectedServer [("text/plain", [104, 105])]).wnd.history =
      connectedServer.wnd.history :=
  echo_of_pushed_clipboard_not_stored sampleEnv connectedServer [("text/plain", [104, 105])]
    [104, 105] [("text/plain", [104, 105])] (by decide) rfl (Or.inr rfl)

/-- C5: a notification processed twice in a row is not added by the second
processing, and the two together add at most one entry. -/
theorem repeated_notification_stored_at_most_once (env : Env) (s : ClipboardServer)
    (message : QByteArray) :
    (newMonitorMessage env (newMonitorMessage env s message) message).wnd.history =
      (newMonitorMessage env s message).wnd.history ∧
    (newMonitorMessage env (newMonitorMessage env s message) message).wnd.history.length ≤
      s.wnd.history.length + 1 := by
  have hsecond : (newMonitorMessage env (newMonitorMessage env s message) message).wnd.history =
      (newMonitorMessage env s message).wnd.history := by
    cases hdec : env.deserializeData message with
    | none =>
      apply newMonitorMessage_dropped
      intro data h; rw [hdec] at h; cases h
    | some data =>
      cases hmsg : mapContains data env.mimeMessage with
      | true =>
        have h1 : ∀ t, (newMonitorMessage env t message).wnd.history = t.wnd.history := by
          intro t
          have := (logLines_fields t (mapValue data env.mimeMessage)).1
          simp [newMonitorMessage, hdec, hmsg, this]
        exact h1 _
      | false =>
        apply newMonitorMessage_dropped
        intro data' hdec'
        rw [hdec] at hdec'
        cases hdec'
        obtain ⟨g1, g2, g3, g4, g5⟩ := notifyWindow_fields env s data
        rw [newMonitorMessage_item env s message data hdec hmsg]
        by_cases hi : s.m_ignoreNextItem = true
        · right; right; left; simp [hi]
        · have hi' : s.m_ignoreNextItem = false := by simpa using hi
          by_cases ho : env.ownsClipboardData data = true
          · exact Or.inr (Or.inl ho)
          · right; right
            have ho' : env.ownsClipboardData data = false := by simpa using ho
            by_cases hc : (s.m_checkclip && !env.isEmpty data &&
                s.m_lastHash != env.dataHash data) = true
            · by_cases hd : s.wnd.storingDisabled = true
              · left; simp [hi', ho', hc, hd]
              · have hd' : s.wnd.storingDisabled = false := by simpa using hd
                left; simp [hi', ho', hc, hd', addToTab]
            · simp only [hi', ho', hc, Bool.false_eq_true, if_false, g4, g5]
              cases hcc : s.m_checkclip with
              | false => exact Or.inr (Or.inl rfl)
              | true =>
                cases hem : env.isEmpty data with
                | true => exact Or.inr (Or.inr rfl)
                | false =>
                  left
                  have hq : s.m_lastHash = env.dataHash data := by simpa [hcc, hem] using hc
                  exact hq.symm
  refine ⟨hsecond, ?_⟩
  rw [hsecond]
  obtain ⟨_, hstep⟩ := newMonitorMessage_step env s message
  rcases hstep with ⟨hh, _⟩ | ⟨d, hh, _⟩
  · rw [hh]; exact Nat.le_succ _
  · rw [hh]; simp

/-! ### The retry loop -/

/-- The loop stops at the least counter value from `id` on whose name can be
removed, provided that value is within the room left. -/
theorem retryLoop_least (env : Env) (room : Nat) :
    ∀ id k : Nat, id ≤ k → k < id + room →
      env.removeServer (env.clipboardMonitorServerName k) = true →
      (∀ j, id ≤ j → j < k → env.removeServer (env.clipboardMonitorServerName j) = false) →
      retryLoop env room id = some k := by
  induction room with
  | zero => intro id k h1 h2; omega
  | succ room ih =>
    intro id k h1 h2 hfree hbusy
    unfold retryLoop
    by_cases hk : id = k
    · subst hk; simp [hfree]
    · have hlt : id < k := lt_of_le_of_ne h1 hk
      rw [hbusy id (le_refl id) hlt]
      simp only [Bool.false_eq_true, if_false]
      exact ih (id + 1) k hlt (by omega) hfree (fun j hj1 hj2 => hbusy j (by omega) hj2)

/-- Whatever the loop returns is the least counter value from `id` on whose name
can be removed. -/
theorem retryLoop_some (env : Env) (room : Nat) :
    ∀ id k : Nat, retryLoop env room id = some k →
      id ≤ k ∧ env.removeServer (env.clipboardMonitorServerName k) = true ∧
      (∀ j, id ≤ j → j < k → env.removeServer (env.clipboardMonitorServerName j) = false) := by
  induction room with
  | zero => intro id k h; simp [retryLoop] at h
  | succ room ih =>
    intro id k h
    unfold retryLoop at h
    by_cases hfree : env.removeServer (env.clipboardMonitorServerName id) = true
    · simp only [hfree, if_true, Option.some.injEq] at h
      subst h
      exact ⟨le_refl _, hfree, fun j h1 h2 => by omega⟩
    · have hfree' : env.removeServer (env.clipboardMonitorServerName id) = false := by
        simpa using hfree
      simp only [hfree', Bool.false_eq_true, if_false] at h
      obtain ⟨h1, h2, h3⟩ := ih (id + 1) k h
      refine ⟨by omega, h2, fun j hj1 hj2 => ?_⟩
      by_cases hj : j = id
      · rw [hj]; exact hfree'
      · exact h3 j (by omega) hj2

theorem startMonitoring_fresh (env : Env) (s : ClipboardServer) (k : Nat)
    (hnone : s.m_monitor = none)
    (hk : retryLoop env (INT_MAX + 1 - s.monitorProcessId) s.monitorProcessId = some k) :
    startMonitoring env s = some { s with
        m_ignoreNextItem := true
        heap := s.heap ++ [{ name := env.clipboardMonitorServerName k,
                             arguments := ["monitor", env.clipboardMonitorServerName k],
                             connected := false, wired := true, closed := false,
                             deleted := false, written := [] }]
        m_monitor := some s.heap.length
        monitorProcessId := k
        wnd := { s.wnd with autoUpdate := true } } := by
  unfold startMonitoring
  rw [hnone]
  simp only [hk]

theorem stopMonitoring_some (s : ClipboardServer) (i : Nat) (hi : s.m_monitor = some i) :
    stopMonitoring s =
      { s with
        heap := s.heap.modify (fun p => p.disconnect.closeConnection.deleteLater) i
        m_monitor := none
        logged := s.logged ++ [.text "Clipboard Monitor: Terminating" "" .LogNote] ++
          [.text "Clipboard Monitor: Terminated" "" .LogNote] } := by
  unfold stopMonitoring
  rw [hi]
  simp only [onMonitor, log, hi]

theorem stopMonitoring_none (s : ClipboardServer) (hi : s.m_monitor = none) :
    stopMonitoring s = s := by
  unfold stopMonitoring
  rw [hi]

theorem stopMonitoring_fields (s : ClipboardServer) :
    (stopMonitoring s).monitorProcessId = s.monitorProcessId ∧
    (stopMonitoring s).heap.length = s.heap.length ∧
    (stopMonitoring s).wnd = s.wnd := by
  cases h : s.m_monitor with
  | none => rw [stopMonitoring_none s h]; simp
  | some i => rw [stopMonitoring_some s i h]; simp

theorem stopMonitoring_tears_down (s : ClipboardServer) (i : Nat) (p : RemoteProcess)
    (hi : s.m_monitor = some i) (hp : s.heap[i]? = some p) :
    (stopMonitoring s).heap[i]? = some p.disconnect.closeConnection.deleteLater ∧
    p.disconnect.closeConnection.deleteLater.tornDown = true := by
  rw [stopMonitoring_some s i hi]
  simp [List.getElem?_modify, hp, RemoteProcess.tornDown, RemoteProcess.disconnect,
    RemoteProcess.closeConnection, RemoteProcess.deleteLater]

theorem stopMonitoring_others (s : ClipboardServer) (j : Nat) (hj : s.m_monitor ≠ some j) :
    (stopMonitoring s).heap[j]? = s.heap[j]? := by
  cases hi : s.m_monitor with
  | none => rw [stopMonitoring_none s hi]
  | some i =>
    have hij : i ≠ j := fun h => hj (by rw [hi, h])
    rw [stopMonitoring_some s i hi]
    simp [List.getElem?_modify, hij]

/-! ### Restart and name allocation -/

/-- C6 (as stated, refuted): the restart after a connection error gives the new
session the very channel name of the session that failed, because
`removeServer` succeeds on that name and the counter is not advanced. -/
theorem restart_reuses_channel_name :
    isMonitoring connectedServer = true ∧
    (monitorConnectionError sampleEnv connectedServer).bind monitorName =
      monitorName connectedServer ∧
    monitorName connectedServer = some "copyq_monitor_0" := by
  decide

/-- C6 (amended): on a connection error of a connected session the server first
tears the session down (it holds no session, the old one is fully torn down) and
then starts a new session, allocated behind the old ones, whose channel name is
the one the retry loop allocates from the current counter: the base name
formatted with the smallest `k` from `monitorProcessId` on for which
`removeServer` succeeds. -/
theorem monitorConnectionError_restarts (env : Env) (s : ClipboardServer) (k : Nat)
    (hmon : isMonitoring s = true) (hk : s.monitorProcessId ≤ k) (hmax : k ≤ INT_MAX)
    (hfree : env.removeServer (env.clipboardMonitorServerName k) = true)
    (hbusy : ∀ j, s.monitorProcessId ≤ j → j < k →
      env.removeServer (env.clipboardMonitorServerName j) = false) :
    (stopMonitoring s).m_monitor = none ∧
    (∃ i p, s.m_monitor = some i ∧ (stopMonitoring s).heap[i]? = some p ∧ p.tornDown = true) ∧
    ∃ s', monitorConnectionError env s = some s' ∧
      s'.m_monitor = some s.heap.length ∧
      monitorName s' = some (env.clipboardMonitorServerName k) ∧
      s'.monitorProcessId = k ∧ s'.m_ignoreNextItem = true := by
  refine ⟨stopMonitoring_no_session s, ?_, ?_⟩
  · unfold isMonitoring at hmon
    cases hi : s.m_monitor with
    | none => simp [hi] at hmon
    | some i =>
      cases hp : s.heap[i]? with
      | none => simp [hi, hp] at hmon
      | some p =>
        obtain ⟨h1, h2⟩ := stopMonitoring_tears_down s i p hi hp
        exact ⟨i, _, rfl, h1, h2⟩
  · obtain ⟨g1, g2, _⟩ := stopMonitoring_fields s
    have hloop : retryLoop env (INT_MAX + 1 - (stopMonitoring s).monitorProcessId)
        (stopMonitoring s).monitorProcessId = some k := by
      rw [g1]
      exact retryLoop_least env _ _ k hk (by omega) hfree hbusy
    refine ⟨_, startMonitoring_fresh env (stopMonitoring s) k (stopMonitoring_no_session s) hloop,
      ?_, ?_, rfl, rfl⟩
    · simp [g2]
    · simp [monitorName]

/-- C6 (amended) at a concrete input: the first session fails while connected. -/
theorem monitorConnectionError_restarts_witness :
    ∃ s', monitorConnectionError sampleEnv connectedServer = some s' ∧
      s'.m_monitor = some connectedServer.heap.length ∧
      monitorName s' = some (sampleEnv.clipboardMonitorServerName 0) ∧
      s'.monitorProcessId = 0 ∧ s'.m_ignoreNextItem = true :=
  (monitorConnectionError_restarts sampleEnv connectedServer 0 (by decide) (by decide)
    (by decide) rfl (fun j h1 h2 => absurd h2 (Nat.not_lt_zero j))).2.2

/-- C7: with no session, `startMonitoring` terminates whenever some counter value
`k` from `monitorProcessId` on (a value of the `int` counter) has a removable
name; the session it starts bears the base name formatted with the smallest such
`k`, and `monitorProcessId` is left equal to it. Conversely whatever it returns
was chosen that way. -/
theorem startMonitoring_chooses_least (env : Env) (s : ClipboardServer)
    (hnone : s.m_monitor = none) :
    (∀ k, s.monitorProcessId ≤ k → k ≤ INT_MAX →
      env.removeServer (env.clipboardMonitorServerName k) = true →
      (∀ j, s.monitorProcessId ≤ j → j < k →
        env.removeServer (env.clipboardMonitorServerName j) = false) →
      ∃ s', startMonitoring env s = some s' ∧
        monitorName s' = some (env.clipboardMonitorServerName k) ∧
        s'.monitorProcessId = k) ∧
    (∀ s', startMonitoring env s = some s' →
      monitorName s' = some (env.clipboardMonitorServerName s'.monitorProcessId) ∧
      s.monitorProcessId ≤ s'.monitorProcessId ∧
      env.removeServer (env.clipboardMonitorServerName s'.monitorProcessId) = true ∧
      (∀ j, s.monitorProcessId ≤ j → j < s'.monitorProcessId →
        env.removeServer (env.clipboardMonitorServerName j) = false)) := by
  constructor
  · intro k hk hmax hfree hbusy
    have hloop := retryLoop_least env (INT_MAX + 1 - s.monitorProcessId) _ k hk (by omega)
      hfree hbusy
    exact ⟨_, startMonitoring_fresh env s k hnone hloop, by simp [monitorName], rfl⟩
  · intro s' hs
    obtain ⟨k, hloop, rfl⟩ := startMonitoring_creates env s s' hnone hs
    obtain ⟨h1, h2, h3⟩ := retryLoop_some env _ _ k hloop
    exact ⟨by simp [monitorName], h1, h2, h3⟩

/-- C7 at a concrete input: the first start of a fresh server picks counter 0. -/
theorem startMonitoring_chooses_least_witness :
    ∃ s', startMonitoring sampleEnv freshServer = some s' ∧
      monitorName s' = some (sampleEnv.clipboardMonitorServerName 0) ∧
      s'.monitorProcessId = 0 :=
  (startMonitoring_chooses_least sampleEnv freshServer rfl).1 0 (Nat.le_refl 0) (by decide) rfl
    (fun j _ h2 => absurd h2 (Nat.not_lt_zero j))

/-- C9: `stopMonitoring` is idempotent, does nothing when there is no session,
and leaves `isMonitoring()` false. -/
theorem stopMonitoring_idempotent (s : ClipboardServer) :
    stopMonitoring (stopMonitoring s) = stopMonitoring s ∧
    (s.m_monitor = none → stopMonitoring s = s) ∧
    isMonitoring (stopMonitoring s) = false := by
  refine ⟨stopMonitoring_none _ (stopMonitoring_no_session s), stopMonitoring_none s, ?_⟩
  unfold isMonitoring
  rw [stopMonitoring_no_session s]

/-! ### At most one live session -/

/-- A list all of whose entries, except possibly the one at index `m`, fail `P`
keeps at most one entry under `filter P`. -/
theorem filter_length_le_one {α : Type} (P : α → Bool) (l : List α) :
    ∀ m : Option Nat, (∀ i a, l[i]? = some a → m ≠ some i → P a = false) →
      (l.filter P).length ≤ 1 := by
  induction l with
  | nil => intro m _; simp
  | cons x xs ih =>
    intro m h
    by_cases hm : m = some 0
    · have hxs : xs.filter P = [] := by
        rw [List.filter_eq_nil_iff]
        intro a ha
        obtain ⟨i, hi⟩ := List.getElem?_of_mem ha
        have := h (i + 1) a (by simpa using hi) (by rw [hm]; simp)
        simp [this]
      rw [List.filter_cons]
      split <;> simp [hxs]
    · have hx : P x = false := h 0 x (by simp) hm
      rw [List.filter_cons]
      simp only [hx, Bool.false_eq_true, if_false]
      apply ih (m.bind (fun k => if k = 0 then none else some (k - 1)))
      intro i a hi hne
      apply h (i + 1) a (by simpa using hi)
      intro hmi
      apply hne
      rw [hmi]
      simp

theorem sessionInvariant_stop (s : ClipboardServer) (h : SessionInvariant s) :
    SessionInvariant (stopMonitoring s) ∧
    ∀ p ∈ (stopMonitoring s).heap, p.tornDown = true := by
  have hall : ∀ (j : Nat) (p : RemoteProcess),
      (stopMonitoring s).heap[j]? = some p → p.tornDown = true := by
    intro j p hp
    by_cases hj : s.m_monitor = some j
    · have hlt := h.2 j hj
      have hq : s.heap[j]? = some (s.heap[j]) := List.getElem?_eq_getElem hlt
      obtain ⟨h1, h2⟩ := stopMonitoring_tears_down s j _ hj hq
      rw [h1] at hp
      cases hp
      exact h2
    · rw [stopMonitoring_others s j hj] at hp
      exact h.1 j p hp hj
  refine ⟨⟨fun j p hp _ => hall j p hp, ?_⟩, ?_⟩
  · intro i hi
    rw [stopMonitoring_no_session s] at hi
    cases hi
  · intro p hp
    obtain ⟨j, hj⟩ := List.getElem?_of_mem hp
    exact hall j p hj

theorem startMonitoring_existing (env : Env) (s : ClipboardServer) (i : Nat)
    (hi : s.m_monitor = some i) :
    startMonitoring env s = some { s with wnd := { s.wnd with autoUpdate := true } } := by
  unfold startMonitoring
  rw [hi]

theorem sessionInvariant_start (env : Env) (s s' : ClipboardServer) (h : SessionInvariant s)
    (hs : startMonitoring env s = some s') : SessionInvariant s' := by
  cases hm : s.m_monitor with
  | some i =>
    rw [startMonitoring_existing env s i hm] at hs
    cases hs
    exact h
  | none =>
    obtain ⟨k, _, rfl⟩ := startMonitoring_creates env s s' hm hs
    constructor
    · intro i p hp hne
      have hne' : i ≠ s.heap.length := fun e => hne (by rw [e])
      have hlt : i < s.heap.length := by
        have : i < (s.heap ++ [_]).length := (List.getElem?_eq_some_iff.mp hp).1
        simp at this
        omega
      have hp' : s.heap[i]? = some p := by
        simpa [List.getElem?_append_left hlt] using hp
      exact h.1 i p hp' (by rw [hm]; simp)
    · intro i hi
      simp only [Option.some.injEq] at hi
      simp [← hi]

theorem sessionInvariant_connects (s : ClipboardServer) (h : SessionInvariant s) :
    SessionInvariant (monitorConnects s) := by
  unfold monitorConnects onMonitor
  cases hm : s.m_monitor with
  | none => simpa [hm] using h
  | some i =>
    constructor
    · intro j p hp hne
      have hij : i ≠ j := fun e => hne (by simp [hm, e])
      have hp' : s.heap[j]? = some p := by
        simpa [List.getElem?_modify, hij] using hp
      exact h.1 j p hp' (by rw [hm]; simpa using hij)
    · intro j hj
      have := h.2 j (by simpa [hm] using hj)
      simpa using this

theorem reachable_sessionInvariant (s : ClipboardServer) (h : Reachable s) :
    SessionInvariant s := by
  induction h with
  | init s hm hh =>
    constructor
    · intro i p hp; simp [hh] at hp
    · intro i hi; rw [hm] at hi; cases hi
  | start env s s' _ hs ih => exact sessionInvariant_start env s s' ih hs
  | stop s _ ih => exact (sessionInvariant_stop s ih).1
  | error env s s' _ hs ih =>
    exact sessionInvariant_start env _ s' (sessionInvariant_stop s ih).1 hs
  | connects s _ ih => exact sessionInvariant_connects s ih

/-- C8: in every reachable state at most one session is live, and a live session
is the one `m_monitor` points to; `startMonitoring` called while a session exists
allocates nothing, keeps the session and does not re-arm `ignoreNext`, and
whenever it does allocate a session every session allocated before is fully torn
down. -/
theorem at_most_one_live_session (s : ClipboardServer) (h : Reachable s) :
    (liveSessions s).length ≤ 1 ∧
    (∀ i p, s.heap[i]? = some p → p.live = true → s.m_monitor = some i) ∧
    (∀ env s', startMonitoring env s = some s' →
      (s.m_monitor ≠ none →
        s'.heap = s.heap ∧ s'.m_monitor = s.m_monitor ∧
        s'.m_ignoreNextItem = s.m_ignoreNextItem) ∧
      (s'.heap ≠ s.heap → ∀ p ∈ s.heap, p.tornDown = true)) := by
  have hinv := reachable_sessionInvariant s h
  refine ⟨?_, ?_, ?_⟩
  · apply filter_length_le_one RemoteProcess.live s.heap s.m_monitor
    intro i a ha hne
    simp [RemoteProcess.live, hinv.1 i a ha hne]
  · intro i p hp hlive
    by_contra hne
    have := hinv.1 i p hp hne
    simp [RemoteProcess.live, this] at hlive
  · intro env s' hs
    cases hm : s.m_monitor with
    | some i =>
      rw [startMonitoring_existing env s i hm] at hs
      cases hs
      exact ⟨fun _ => ⟨rfl, hm, rfl⟩, fun hne => absurd rfl hne⟩
    | none =>
      refine ⟨fun hne => absurd rfl hne, fun _ p hp => ?_⟩
      obtain ⟨j, hj⟩ := List.getElem?_of_mem hp
      exact hinv.1 j p hj (by rw [hm]; simp)

/-- C8 at a concrete input: the server after its first `startMonitoring`. -/
theorem at_most_one_live_session_witness :
    ∃ s', startMonitoring sampleEnv freshServer = some s' ∧ (liveSessions s').length ≤ 1 :=
  ⟨_, rfl, (at_most_one_live_session _
    (Reachable.start sampleEnv freshServer _ (Reachable.init freshServer rfl rfl) rfl)).1⟩

/-! ### Connection acceptor -/

/-- C10 (as stated, refuted): the frame of this client arrives whole but its
payload does not decode as an argv (the stream status is not `Ok`), and still a
worker is started for the client and the connection is not disposed. -/
theorem newConnection_dispatches_undecodable :
    truncatedClient.incoming = some [0, 0, 0, 1] ∧
    (sampleEnv.readArguments [0, 0, 0, 1]).2 = false ∧
    newConnection sampleEnv freshServer truncatedClient =
      doCommand freshServer [] (some truncatedClient.descriptor) ∧
    (newConnection sampleEnv freshServer truncatedClient).m_clientThreads ≠ [] ∧
    (newConnection sampleEnv freshServer truncatedClient).disposedClients = [] := by
  decide

/-- C10 (amended): `newConnection` calls `doCommand` exactly when a full frame
was read, with whatever arguments the decoder left and without looking at the
decoder's status; then the connection is not disposed. When the frame cannot be
read, an error is logged, the connection is disposed, no worker is started and
no frame is sent to the client. -/
theorem newConnection_dispatch (env : Env) (s : ClipboardServer) (client : QLocalSocket) :
    (∀ msg, client.incoming = some msg →
      newConnection env s client =
        doCommand s (env.readArguments msg).1 (some client.descriptor) ∧
      (newConnection env s client).disposedClients = s.disposedClients ∧
      (newConnection env s client).sentFrames = s.sentFrames) ∧
    (client.incoming = none →
      (newConnection env s client).m_clientThreads = s.m_clientThreads ∧
      (newConnection env s client).m_internalThreads = s.m_internalThreads ∧
      (newConnection env s client).disposedClients = s.disposedClients ++ [client.descriptor] ∧
      (newConnection env s client).sentFrames = s.sentFrames ∧
      (newConnection env s client).logged = s.logged ++
        [.text "Cannot read message from client! (%1)" client.errorString .LogError]) := by
  constructor
  · intro msg h
    simp [newConnection, h, doCommand]
  · intro h
    simp [newConnection, h, log]

/-! ### Command dispatch -/

theorem doCommand_eq (s : ClipboardServer) (args : Arguments) (client : Option Nat) :
    doCommand s args client =
      match client with
      | some _ => { s with m_clientThreads := s.m_clientThreads ++ [newWorker args client] }
      | none => { s with m_internalThreads := s.m_internalThreads ++ [newWorker args client] } := by
  cases client <;> rfl

/-- C11: `doCommand` starts the worker it creates on exactly one pool: on the
client pool if and only if the request has an origin connection, on the internal
pool if and only if it has none, and the other pool is left as it was. -/
theorem doCommand_one_pool (s : ClipboardServer) (args : Arguments) (client : Option Nat) :
    (client.isSome = true ↔
      (doCommand s args client).m_clientThreads =
        s.m_clientThreads ++ [newWorker args client]) ∧
    (client = none ↔
      (doCommand s args client).m_internalThreads =
        s.m_internalThreads ++ [newWorker args client]) ∧
    (client.isSome = true → (doCommand s args client).m_internalThreads = s.m_internalThreads) ∧
    (client = none → (doCommand s args client).m_clientThreads = s.m_clientThreads) := by
  rw [doCommand_eq]
  cases client with
  | none => simp
  | some c => simp

theorem dispatchAll_pools (requests : List (Arguments × Option Nat)) :
    ∀ s : ClipboardServer,
      (dispatchAll s requests).m_clientThreads =
        s.m_clientThreads ++
          (requests.filter (fun r => r.2.isSome)).map (fun r => newWorker r.1 r.2) ∧
      (dispatchAll s requests).m_internalThreads =
        s.m_internalThreads ++
          (requests.filter (fun r => !r.2.isSome)).map (fun r => newWorker r.1 r.2) := by
  induction requests with
  | nil => intro s; simp [dispatchAll]
  | cons r rs ih =>
    intro s
    have hrun : dispatchAll s (r :: rs) = dispatchAll (doCommand s r.1 r.2) rs := rfl
    obtain ⟨h1, h2⟩ := ih (doCommand s r.1 r.2)
    rw [hrun, h1, h2, doCommand_eq]
    obtain ⟨args, client⟩ := r
    cases client with
    | none => simp
    | some c => simp

/-- C12: after any list of requests was dispatched from empty pools, the
`disconnected()` signal of connection `c` invokes `terminate()` on exactly the
workers created for the requests whose origin is `c` (a single worker when `c`
dispatched one request, none of the others), and the broadcast emitted by
`onAboutToQuit` invokes it on every worker of both pools, that is on the worker
of every dispatched request. -/
theorem cancellation_wiring (st : ServerProcess) (s0 : ClipboardServer)
    (requests : List (Arguments × Option Nat)) (c : Nat)
    (hclient : s0.m_clientThreads = []) (hinternal : s0.m_internalThreads = [])
    (hst : st.server = dispatchAll s0 requests) :
    (clientDisconnected st c).terminateRequests =
      st.terminateRequests ++
        (requests.filter (fun r => r.2 == some c)).map (fun r => newWorker r.1 r.2) ∧
    (onAboutToQuit st).terminateRequests = st.terminateRequests ++ allWorkers st.server ∧
    (allWorkers st.server).Perm (requests.map (fun r => newWorker r.1 r.2)) := by
  obtain ⟨h1, h2⟩ := dispatchAll_pools requests s0
  rw [hclient, List.nil_append] at h1
  rw [hinternal, List.nil_append] at h2
  have hall : allWorkers st.server =
      (requests.filter (fun r => r.2.isSome)).map (fun r => newWorker r.1 r.2) ++
      (requests.filter (fun r => !r.2.isSome)).map (fun r => newWorker r.1 r.2) := by
    rw [allWorkers, hst, h1, h2]
  refine ⟨?_, ?_, ?_⟩
  · have htargets : (allWorkers st.server).filter
        (fun w => w.terminateOnDisconnect && w.client == some c) =
        (requests.filter (fun r => r.2 == some c)).map (fun r => newWorker r.1 r.2) := by
      rw [hall, List.filter_append, List.filter_map, List.filter_map, List.filter_filter,
        List.filter_filter]
      have e1 : (requests.filter (fun r =>
          ((fun w : ScriptableWorker => w.terminateOnDisconnect && w.client == some c) ∘
            fun r : Arguments × Option Nat => newWorker r.1 r.2) r && r.2.isSome)) =
          requests.filter (fun r => r.2 == some c) := by
        apply List.filter_congr
        intro r _
        obtain ⟨args, client⟩ := r
        cases client <;> simp [newWorker]
      have e2 : (requests.filter (fun r =>
          ((fun w : ScriptableWorker => w.terminateOnDisconnect && w.client == some c) ∘
            fun r : Arguments × Option Nat => newWorker r.1 r.2) r && !r.2.isSome)) = [] := by
        rw [List.filter_eq_nil_iff]
        intro r _
        obtain ⟨args, client⟩ := r
        cases client <;> simp [newWorker]
      rw [e1, e2]
      simp
    unfold clientDisconnected
    simp only [htargets]
    split <;> rfl
  · have hquit : (allWorkers st.server).filter (fun w => w.terminateOnQuit) =
        allWorkers st.server := by
      rw [List.filter_eq_self]
      intro w hw
      rw [hall] at hw
      simp only [List.mem_append, List.mem_map, List.mem_filter] at hw
      rcases hw with ⟨r, _, rfl⟩ | ⟨r, _, rfl⟩ <;> rfl
    unfold onAboutToQuit emitTerminateClientThreads
    simp only [hquit]
    split <;> rfl
  · rw [hall]
    have := List.filter_append_perm (fun r : Arguments × Option Nat => r.2.isSome) requests
    have hmap := this.map (fun r => newWorker r.1 r.2)
    simpa using hmap

/-- C12 at a concrete input: one client request and one internal request. -/
theorem cancellation_wiring_witness :
    (clientDisconnected (processOf (dispatchAll freshServer [([[1]], some 7), ([[2]], none)]))
        7).terminateRequests =
      (processOf (dispatchAll freshServer [([[1]], some 7), ([[2]], none)])).terminateRequests ++
        ([([[1]], some 7), ([[2]], none)].filter
          (fun r : Arguments × Option Nat => r.2 == some 7)).map
          (fun r => newWorker r.1 r.2) :=
  (cancellation_wiring (processOf (dispatchAll freshServer [([[1]], some 7), ([[2]], none)]))
    freshServer [([[1]], some 7), ([[2]], none)] 7 rfl rfl rfl).1

/-- C13: for a shortcut registered with script `s`, `shortcutActivated`
dispatches the request with argv `["eval", s]` and no origin connection: its
worker is started on the internal pool, the client pool and the registry are
left as they were. -/
theorem shortcutActivated_dispatch (st : ServerProcess) (shortcut : Nat) (script : QByteArray)
    (hreg : registryFind st.m_shortcutActions shortcut = some script) :
    (shortcutActivated st shortcut).server =
      doCommand st.server [latin1 "eval", script] none ∧
    (shortcutActivated st shortcut).server.m_internalThreads =
      st.server.m_internalThreads ++ [newWorker [latin1 "eval", script] none] ∧
    (shortcutActivated st shortcut).server.m_clientThreads = st.server.m_clientThreads ∧
    (shortcutActivated st shortcut).m_shortcutActions = st.m_shortcutActions ∧
    ([latin1 "eval", script] : Arguments).head? = some [101, 118, 97, 108] := by
  have hany : st.m_shortcutActions.any (fun e => e.1 == shortcut) = true := by
    unfold registryFind at hreg
    cases hfind : st.m_shortcutActions.find? (fun e => e.1 == shortcut) with
    | none => simp [hfind] at hreg
    | some e =>
      rw [List.any_eq_true]
      have hp := List.find?_some hfind
      exact ⟨e, List.mem_of_find?_eq_some hfind, hp⟩
  refine ⟨?_, ?_, ?_, ?_, rfl⟩
  · simp [shortcutActivated, hreg]
  · simp [shortcutActivated, hreg, doCommand, newWorker]
  · simp [shortcutActivated, doCommand]
  · simp [shortcutActivated, hany]

/-- C13 at a concrete input: the shortcut registered for toggling the window. -/
theorem shortcutActivated_dispatch_witness :
    (shortcutActivated
        (loadSettings sampleEnv sampleServerEnv sampleConfig (processOf connectedServer))
        0).server.m_internalThreads =
      (loadSettings sampleEnv sampleServerEnv sampleConfig
        (processOf connectedServer)).server.m_internalThreads ++
        [newWorker [latin1 "eval", latin1 "toggle()"] none] :=
  (shortcutActivated_dispatch
    (loadSettings sampleEnv sampleServerEnv sampleConfig (processOf connectedServer))
    0 (latin1 "toggle()") (by decide)).2.1

/-! ### Results sent to clients -/

theorem splitResult_encodeInt32 (m : QByteArray) (c : Int)
    (hlo : -2147483648 ≤ c) (hhi : c ≤ 2147483647) :
    splitResult (encodeInt32 c ++ m) = some (c, m) := by
  unfold encodeInt32 splitResult
  simp only [List.cons_append, List.nil_append, Option.some.injEq, Prod.mk.injEq, and_true]
  generalize hu : (c % 4294967296).toNat = u
  have hmod := Int.emod_nonneg c (by decide : (4294967296 : Int) ≠ 0)
  have hlt := Int.emod_lt_of_pos c (by decide : (0 : Int) < 4294967296)
  have hcast : (u : Int) = c % 4294967296 := by
    rw [← hu]; exact Int.toNat_of_nonneg hmod
  have hu' : u < 4294967296 := by omega
  have hsum : ((u / 16777216 % 256 * 256 + u / 65536 % 256) * 256 + u / 256 % 256) * 256 +
      u % 256 = u := by omega
  rw [hsum]
  split <;> omega

/-- C14: for every output `m` and every exit code `c` of type `int`, the payload
that `sendMessage` hands to `writeMessage` on a connected, writable client is
`resultPayload m c`; it has length `4 + |m|`, its first four bytes are bytes
which read as a big-endian two's-complement `int32` give back `c`, the remaining
bytes are `m`, and splitting it after four bytes recovers the pair `(c, m)`. -/
theorem resultPayload_roundtrip (m : QByteArray) (c : Int)
    (hlo : -2147483648 ≤ c) (hhi : c ≤ 2147483647) :
    (∀ (env : ServerEnv) (st : ServerProcess) (client : Nat),
      (sendMessage env st client { connected := true, writable := true } m c).server.sentFrames =
        st.server.sentFrames ++ [(client, resultPayload m c)]) ∧
    (resultPayload m c).length = 4 + m.length ∧
    (resultPayload m c).take 4 = encodeInt32 c ∧
    (∀ b ∈ (resultPayload m c).take 4, b < 256) ∧
    splitResult ((resultPayload m c).take 4) = some (c, []) ∧
    (resultPayload m c).drop 4 = m ∧
    splitResult (resultPayload m c) = some (c, m) := by
  have hlen : (encodeInt32 c).length = 4 := rfl
  have htake : (resultPayload m c).take 4 = encodeInt32 c := by
    unfold resultPayload
    rw [List.take_append_of_le_length (by rw [hlen]), ← hlen, List.take_length]
  refine ⟨?_, ?_, htake, ?_, ?_, ?_, ?_⟩
  · intro env st client
    unfold sendMessage
    simp only [if_true, Bool.not_true, Bool.false_eq_true, if_false]
    split
    · rfl
    · split <;> rfl
  · unfold resultPayload
    rw [List.length_append, hlen]
  · rw [htake]
    intro b hb
    unfold encodeInt32 at hb
    simp only [List.mem_cons, List.mem_singleton, List.not_mem_nil, or_false] at hb
    rcases hb with h | h | h | h <;> omega
  · rw [htake]
    have := splitResult_encodeInt32 [] c hlo hhi
    simpa using this
  · unfold resultPayload
    rw [← hlen, List.drop_left]
  · exact splitResult_encodeInt32 m c hlo hhi

/-- C14 at a concrete input: three bytes of output with exit code -2. -/
theorem resultPayload_roundtrip_witness :
    splitResult (resultPayload [1, 2, 3] (-2)) = some (-2, [1, 2, 3]) :=
  (resultPayload_roundtrip [1, 2, 3] (-2) (by decide) (by decide)).2.2.2.2.2.2

/-- C15: `sendMessage` flushes the client and connects its `destroyed()` to
`qApp->quit()` if and only if the client is connected, the frame was written and
the exit code is `CommandExit`; with any other exit code (a `CommandFinished`
frame, or a frame with exit code 0 when `CommandExit` is not 0) nothing is
scheduled, and for a client that is not connected nothing is written or
scheduled at all. -/
theorem sendMessage_schedules_quit (env : ServerEnv) (st : ServerProcess) (client : Nat)
    (sock : SocketStatus) (m : QByteArray) (c : Int)
    (hdistinct : env.CommandExit ≠ env.CommandFinished) :
    (((sendMessage env st client sock m c).quitOnDestroyed = st.quitOnDestroyed ++ [client] ∧
        (sendMessage env st client sock m c).flushedClients = st.flushedClients ++ [client]) ↔
      (sock.connected = true ∧ sock.writable = true ∧ c = env.CommandExit)) ∧
    (¬ (sock.connected = true ∧ sock.writable = true ∧ c = env.CommandExit) →
      (sendMessage env st client sock m c).quitOnDestroyed = st.quitOnDestroyed ∧
      (sendMessage env st client sock m c).flushedClients = st.flushedClients) ∧
    (c = env.CommandFinished →
      (sendMessage env st client sock m c).quitOnDestroyed = st.quitOnDestroyed) ∧
    (env.CommandExit ≠ 0 → c = 0 →
      (sendMessage env st client sock m c).quitOnDestroyed = st.quitOnDestroyed) ∧
    (sock.connected = false → sendMessage env st client sock m c = st) := by
  have hno : ¬ (sock.connected = true ∧ sock.writable = true ∧ c = env.CommandExit) →
      (sendMessage env st client sock m c).quitOnDestroyed = st.quitOnDestroyed ∧
      (sendMessage env st client sock m c).flushedClients = st.flushedClients := by
    intro h
    unfold sendMessage
    cases hc : sock.connected with
    | false => simp
    | true =>
      cases hw : sock.writable with
      | false => simp
      | true =>
        have hne : c ≠ env.CommandExit := fun e => h ⟨hc, hw, e⟩
        by_cases hf : c = env.CommandFinished
        · simp [hf]
        · simp [hf, hne]
  have hyes : (sock.connected = true ∧ sock.writable = true ∧ c = env.CommandExit) →
      (sendMessage env st client sock m c).quitOnDestroyed = st.quitOnDestroyed ++ [client] ∧
      (sendMessage env st client sock m c).flushedClients = st.flushedClients ++ [client] := by
    rintro ⟨hc, hw, he⟩
    unfold sendMessage
    simp [hc, hw, he, hdistinct]
  refine ⟨⟨fun h => ?_, hyes⟩, hno, ?_, ?_, ?_⟩
  · by_contra hcond
    have := (hno hcond).1
    rw [this] at h
    simp at h
  · intro hf
    exact (hno (fun h => hdistinct (h.2.2.symm.trans hf))).1
  · intro h0 hc
    exact (hno (fun h => h0 (h.2.2.symm.trans hc))).1
  · intro h
    simp [sendMessage, h]

/-- C15 at a concrete input: an `Exit` frame to a connected client. -/
theorem sendMessage_schedules_quit_witness :
    (sendMessage sampleServerEnv (processOf freshServer) 7
        { connected := true, writable := true } [] 6).quitOnDestroyed =
      (processOf freshServer).quitOnDestroyed ++ [7] ∧
    (sendMessage sampleServerEnv (processOf freshServer) 7
        { connected := true, writable := true } [] 6).flushedClients =
      (processOf freshServer).flushedClients ++ [7] :=
  (sendMessage_schedules_quit sampleServerEnv (processOf freshServer) 7
    { connected := true, writable := true } [] 6 (by decide)).1.2 ⟨rfl, rfl, rfl⟩

/-! ### Shutdown -/

/-- C16: when `maybeQuit` runs while a client worker is active and the user
declines the prompt, `QCoreApplication::exit()` is not called, no `terminate()`
is requested, and the state is what it was, apart from the prompt having been
shown. -/
theorem maybeQuit_vetoed (st : ServerProcess) (ctx : QuitContext)
    (hactive : 0 < ctx.activeClientThreads) (hdecline : ctx.exitAnyway = false) :
    maybeQuit st ctx = { st with promptsShown := st.promptsShown + 1 } ∧
    (maybeQuit st ctx).exitRequested = st.exitRequested ∧
    (maybeQuit st ctx).terminateRequests = st.terminateRequests ∧
    (maybeQuit st ctx).server = st.server := by
  have h : maybeQuit st ctx = { st with promptsShown := st.promptsShown + 1 } := by
    simp [maybeQuit, askToQuit, hactive, hdecline]
  rw [h]
  exact ⟨rfl, rfl, rfl, rfl⟩

/-- C16 at a concrete input: one client worker is running and the user declines. -/
theorem maybeQuit_vetoed_witness :
    (maybeQuit (processOf freshServer) clientBusyDeclined).exitRequested =
      (processOf freshServer).exitRequested :=
  (maybeQuit_vetoed (processOf freshServer) clientBusyDeclined (by decide) rfl).2.1

/-- C17 (as stated, refuted): with a worker active in the internal pool only, and
a user who would decline, `askToQuit` returns true and never shows the prompt. -/
theorem askToQuit_ignores_internal_pool :
    0 < internalBusy.activeInternalThreads ∧ internalBusy.exitAnyway = false ∧
    (askToQuit (processOf freshServer) internalBusy).1 = true ∧
    (askToQuit (processOf freshServer) internalBusy).2.promptsShown =
      (processOf freshServer).promptsShown := by
  decide

/-- C17 (amended): `askToQuit` shows the prompt and returns its answer whenever
a worker of the client pool is active or the window has a running action; it
returns true without showing the prompt exactly when the client pool has no
active worker and no action is running, whatever the internal pool does. -/
theorem askToQuit_consults_prompt (st : ServerProcess) (ctx : QuitContext) :
    ((0 < ctx.activeClientThreads ∨ ctx.hasRunningAction = true) →
      askToQuit st ctx = (ctx.exitAnyway, { st with promptsShown := st.promptsShown + 1 })) ∧
    ((ctx.activeClientThreads = 0 ∧ ctx.hasRunningAction = false) →
      askToQuit st ctx = (true, st)) := by
  constructor
  · intro h
    rcases h with h | h <;> simp [askToQuit, h]
  · rintro ⟨h1, h2⟩
    simp [askToQuit, h1, h2]

/-- C18 (as stated, refuted): a server that has just started its session, which
is not yet connected, still holds that session after `onAboutToQuit`. -/
theorem onAboutToQuit_keeps_connecting_session :
    (startMonitoring sampleEnv freshServer).map
        (fun s => (isMonitoring s, (onAboutToQuit (processOf s)).server.m_monitor)) =
      some (false, some 0) := by
  decide

/-- C18 (amended): after `onAboutToQuit` the server holds no session when the
session was connected, or when there was none; when a session exists that is
not connected, `stopMonitoring` is not called and the server is left as it was,
still holding the session. -/
theorem onAboutToQuit_monitor (st : ServerProcess) :
    (isMonitoring st.server = true → (onAboutToQuit st).server.m_monitor = none) ∧
    (st.server.m_monitor = none → (onAboutToQuit st).server.m_monitor = none) ∧
    (isMonitoring st.server = false → (onAboutToQuit st).server = st.server) := by
  unfold onAboutToQuit emitTerminateClientThreads
  refine ⟨?_, ?_, ?_⟩
  · intro h
    simp [h, stopMonitoring_no_session]
  · intro h
    have hm : isMonitoring st.server = false := by simp [isMonitoring, h]
    simp [hm, h]
  · intro h
    simp [h]

/-! ### Configuration of the monitor -/

theorem isMonitoring_cases (s : ClipboardServer) :
    (isMonitoring s = true ∧ ∃ i p, s.m_monitor = some i ∧ s.heap[i]? = some p ∧
      p.connected = true) ∨ isMonitoring s = false := by
  cases hi : s.m_monitor with
  | none => right; simp [isMonitoring, hi]
  | some i =>
    cases hp : s.heap[i]? with
    | none => right; simp [isMonitoring, hi, hp]
    | some p =>
      cases hc : p.connected with
      | false => right; simp [isMonitoring, hi, hp, hc]
      | true => left; exact ⟨by simp [isMonitoring, hi, hp, hc], i, p, rfl, hp, hc⟩

theorem loadMonitorSettings_idle (env : Env) (senv : ServerEnv) (cfg : ConfigurationManager)
    (s : ClipboardServer) (h : isMonitoring s = false) :
    loadMonitorSettings env senv cfg s = s := by
  simp [loadMonitorSettings, h]

theorem loadMonitorSettings_connected (env : Env) (senv : ServerEnv)
    (cfg : ConfigurationManager) (s : ClipboardServer) (i : Nat) (p : RemoteProcess)
    (hi : s.m_monitor = some i) (hp : s.heap[i]? = some p) (hc : p.connected = true) :
    loadMonitorSettings env senv cfg s =
      { s with
        m_checkclip := cfg.check_clipboard
        m_lastHash := 0
        heap := s.heap.modify
          (fun p => { p with written := p.written ++ [settingsMessage env senv cfg] }) i } := by
  have hm : isMonitoring s = true := by simp [isMonitoring, hi, hp, hc]
  simp [loadMonitorSettings, hm, onMonitor, hi]

/-- C19: running `loadMonitorSettings` twice in a row with the same
configuration leaves `lastHash`, `checkclip`, `ignoreNext`, the session pointer,
its channel name and its connection state as one run leaves them; indeed the
second run changes nothing outside the heap of sessions. With a connected
session each run writes the same message to the monitor, once; with no connected
session a run writes nothing and changes nothing. -/
theorem loadMonitorSettings_idempotent (env : Env) (senv : ServerEnv)
    (cfg : ConfigurationManager) (s : ClipboardServer) :
    { loadMonitorSettings env senv cfg (loadMonitorSettings env senv cfg s) with
        heap := (loadMonitorSettings env senv cfg s).heap } =
      loadMonitorSettings env senv cfg s ∧
    isMonitoring (loadMonitorSettings env senv cfg (loadMonitorSettings env senv cfg s)) =
      isMonitoring (loadMonitorSettings env senv cfg s) ∧
    monitorName (loadMonitorSettings env senv cfg (loadMonitorSettings env senv cfg s)) =
      monitorName (loadMonitorSettings env senv cfg s) ∧
    (isMonitoring s = true →
      monitorWritten (loadMonitorSettings env senv cfg s) =
        monitorWritten s ++ [settingsMessage env senv cfg] ∧
      monitorWritten (loadMonitorSettings env senv cfg (loadMonitorSettings env senv cfg s)) =
        monitorWritten (loadMonitorSettings env senv cfg s) ++ [settingsMessage env senv cfg]) ∧
    (isMonitoring s = false →
      loadMonitorSettings env senv cfg s = s ∧
      loadMonitorSettings env senv cfg (loadMonitorSettings env senv cfg s) = s) := by
  rcases isMonitoring_cases s with ⟨hm, i, p, hi, hp, hc⟩ | hm
  · have h1 := loadMonitorSettings_connected env senv cfg s i p hi hp hc
    have hp1 : (loadMonitorSettings env senv cfg s).heap[i]? =
        some { p with written := p.written ++ [settingsMessage env senv cfg] } := by
      rw [h1]; simp [List.getElem?_modify, hp]
    have hi1 : (loadMonitorSettings env senv cfg s).m_monitor = some i := by rw [h1]; exact hi
    have h2 := loadMonitorSettings_connected env senv cfg (loadMonitorSettings env senv cfg s)
      i _ hi1 hp1 hc
    have hp2 : (loadMonitorSettings env senv cfg (loadMonitorSettings env senv cfg s)).heap[i]? =
        some { p with written :=
          p.written ++ [settingsMessage env senv cfg] ++ [settingsMessage env senv cfg] } := by
      rw [h2]; simp [List.getElem?_modify, hp1]
    have hi2 : (loadMonitorSettings env senv cfg
        (loadMonitorSettings env senv cfg s)).m_monitor = some i := by rw [h2]; exact hi1
    refine ⟨?_, ?_, ?_, ?_, ?_⟩
    · rw [h2]
      conv_rhs => rw [h1]
      rw [h1]
    · simp [isMonitoring, hi1, hi2, hp1, hp2]
    · simp [monitorName, hi1, hi2, hp1, hp2]
    · intro _
      simp [monitorWritten, hi, hi1, hi2, hp, hp1, hp2]
    · intro h; rw [hm] at h; cases h
  · have h1 := loadMonitorSettings_idle env senv cfg s hm
    rw [h1, h1]
    refine ⟨rfl, rfl, rfl, ?_, ?_⟩
    · intro h; rw [hm] at h; cases h
    · intro _; exact ⟨rfl, rfl⟩

/-! ### Global shortcuts -/

theorem registrySet_fresh (registry : List (Nat × QByteArray)) (key : Nat) (script : QByteArray)
    (h : ∀ e ∈ registry, e.1 ≠ key) :
    registrySet registry key script = registry ++ [(key, script)] := by
  unfold registrySet
  have hany : registry.any (fun e => e.1 == key) = false := by
    rw [List.any_eq_false]
    intro e he
    simpa using h e he
  simp [hany]

theorem registerShortcut_invariant (script : QByteArray) (k : QKeySequence) (base : Nat)
    (old : List QxtGlobalShortcut) (st : ServerProcess)
    (entries : List (Option QKeySequence × QByteArray))
    (h : RegistryInvariant base old st entries) :
    RegistryInvariant base old (registerShortcut script st k) (entries ++ [(some k, script)]) := by
  obtain ⟨hkeys, hnodup, hent, hold, fresh, hheap⟩ := h
  have hfresh : ∀ e ∈ st.m_shortcutActions, e.1 ≠ st.shortcutHeap.length :=
    fun e he => Nat.ne_of_lt (hkeys e he).2
  have hbase : base ≤ st.shortcutHeap.length := by
    rw [hheap, List.length_append, hold]; exact Nat.le_add_right _ _
  have hreg : (registerShortcut script st k).m_shortcutActions =
      st.m_shortcutActions ++ [(st.shortcutHeap.length, script)] :=
    registrySet_fresh _ _ _ hfresh
  have hheap' : (registerShortcut script st k).shortcutHeap =
      st.shortcutHeap ++ [{ shortcut := k, wired := true, deleted := false }] := rfl
  refine ⟨?_, ?_, ?_, hold, ?_⟩
  · intro e he
    rw [hreg, List.mem_append, List.mem_singleton] at he
    rw [hheap', List.length_append]
    rcases he with he | he
    · exact ⟨(hkeys e he).1, Nat.lt_add_right _ (hkeys e he).2⟩
    · rw [he]; exact ⟨hbase, by simp⟩
  · rw [hreg, List.map_append, List.nodup_append]
    refine ⟨hnodup, by simp, ?_⟩
    intro a ha hb
    simp only [List.map_cons, List.map_nil, List.mem_singleton] at hb
    obtain ⟨e, he, rfl⟩ := List.mem_map.mp ha
    exact hfresh e he hb
  · unfold registeredShortcuts
    rw [hreg, hheap', List.map_append, ← hent]
    unfold registeredShortcuts
    congr 1
    · apply List.map_congr_left
      intro e he
      rw [List.getElem?_append_left (hkeys e he).2]
    · simp
  · exact ⟨fresh ++ [{ shortcut := k, wired := true, deleted := false }], by
      rw [hheap', hheap, List.append_assoc]⟩

theorem createGlobalShortcut_invariant (senv : ServerEnv) (cfg : ConfigurationManager)
    (hbuild : senv.NO_GLOBAL_SHORTCUTS = false) (id : Actions.Id) (script : QByteArray)
    (base : Nat) (old : List QxtGlobalShortcut) (st : ServerProcess)
    (entries : List (Option QKeySequence × QByteArray))
    (h : RegistryInvariant base old st entries) :
    RegistryInvariant base old (createGlobalShortcut senv cfg st id script)
      (entries ++ (cfg.shortcuts id).map (fun k => (some k, script))) := by
  unfold createGlobalShortcut
  simp only [hbuild, Bool.false_eq_true, if_false]
  generalize cfg.shortcuts id = ks
  induction ks generalizing st entries with
  | nil => simpa using h
  | cons k ks ih =>
    have := ih (registerShortcut script st k) (entries ++ [(some k, script)])
      (registerShortcut_invariant script k base old st entries h)
    simpa using this

theorem createAll_invariant (senv : ServerEnv) (cfg : ConfigurationManager)
    (hbuild : senv.NO_GLOBAL_SHORTCUTS = false) (actions : List (Actions.Id × QByteArray))
    (base : Nat) (old : List QxtGlobalShortcut) :
    ∀ (st : ServerProcess) (entries : List (Option QKeySequence × QByteArray)),
      RegistryInvariant base old st entries →
      RegistryInvariant base old
        (actions.foldl (fun acc a => createGlobalShortcut senv cfg acc a.1 a.2) st)
        (entries ++ actions.flatMap (fun a => (cfg.shortcuts a.1).map (fun k => (some k, a.2)))) := by
  induction actions with
  | nil => intro st entries h; simpa using h
  | cons a rest ih =>
    intro st entries h
    have := ih _ _ (createGlobalShortcut_invariant senv cfg hbuild a.1 a.2 base old st entries h)
    simpa [List.flatMap_cons, List.append_assoc] using this

theorem deleteAll_heap (keys : List Nat) :
    ∀ st : ServerProcess,
      (keys.foldl deleteShortcut st).shortcutHeap.length = st.shortcutHeap.length ∧
      (keys.foldl deleteShortcut st).server = st.server ∧
      ∀ i, ((keys.foldl deleteShortcut st).shortcutHeap[i]?).map (fun g => g.deleted) =
        (st.shortcutHeap[i]?).map (fun g => g.deleted || decide (i ∈ keys)) := by
  induction keys with
  | nil => intro st; simp
  | cons k ks ih =>
    intro st
    obtain ⟨h1, h2, h3⟩ := ih (deleteShortcut st k)
    refine ⟨?_, ?_, ?_⟩
    · rw [List.foldl_cons, h1]; simp [deleteShortcut]
    · rw [List.foldl_cons, h2]; rfl
    · intro i
      rw [List.foldl_cons, h3 i]
      simp only [deleteShortcut, List.getElem?_modify]
      cases hg : st.shortcutHeap[i]? with
      | none => simp
      | some g =>
        by_cases hki : k = i
        · simp [hki]
        · have hik : ¬ i = k := fun e => hki e.symm
          simp [hki, hik]

theorem loadSettings_shortcut_fields (env : Env) (senv : ServerEnv)
    (cfg : ConfigurationManager) (st : ServerProcess) :
    (loadSettings env senv cfg st).m_shortcutActions =
      (reloadShortcuts senv cfg st).m_shortcutActions ∧
    (loadSettings env senv cfg st).shortcutHeap = (reloadShortcuts senv cfg st).shortcutHeap := by
  by_cases h : isMonitoring (reloadShortcuts senv cfg st).server = true <;>
    simp [loadSettings, h]

/-- C20 (as stated, refuted): in a build with `NO_GLOBAL_SHORTCUTS` the registry
is empty after `loadSettings` although three key sequences are configured. -/
theorem loadSettings_registers_nothing_without_shortcuts :
    registeredShortcuts
        (loadSettings sampleEnv noShortcutsEnv sampleConfig (processOf connectedServer)) = [] ∧
    (configuredShortcuts sampleConfig).length = 3 := by
  decide

/-- C20 (amended): in a build with global shortcuts, after `loadSettings` the
registry holds, in order, one entry for every key sequence configured for each
of the fourteen global actions, mapped to the script of that action; its keys
are pairwise distinct shortcut objects allocated by this call, so no entry of an
earlier `loadSettings` survives, and the shortcut objects of the earlier entries
are deleted. In a build with `NO_GLOBAL_SHORTCUTS` the registry and the shortcut
objects are left as they were. -/
theorem loadSettings_registry (env : Env) (senv : ServerEnv) (cfg : ConfigurationManager)
    (st : ServerProcess) :
    (senv.NO_GLOBAL_SHORTCUTS = false →
      registeredShortcuts (loadSettings env senv cfg st) = configuredShortcuts cfg ∧
      ((loadSettings env senv cfg st).m_shortcutActions.map Prod.fst).Nodup ∧
      (∀ e ∈ (loadSettings env senv cfg st).m_shortcutActions,
        st.shortcutHeap.length ≤ e.1 ∧ e.1 < (loadSettings env senv cfg st).shortcutHeap.length) ∧
      (∀ e ∈ st.m_shortcutActions, e.1 < st.shortcutHeap.length →
        ∀ g, (loadSettings env senv cfg st).shortcutHeap[e.1]? = some g → g.deleted = true)) ∧
    (senv.NO_GLOBAL_SHORTCUTS = true →
      (loadSettings env senv cfg st).m_shortcutActions = st.m_shortcutActions ∧
      (loadSettings env senv cfg st).shortcutHeap = st.shortcutHeap) := by
  obtain ⟨hreg, hheap⟩ := loadSettings_shortcut_fields env senv cfg st
  constructor
  · intro hbuild
    obtain ⟨hlen, _, hdel⟩ := deleteAll_heap (st.m_shortcutActions.map Prod.fst) st
    have hstart : RegistryInvariant st.shortcutHeap.length
        ((st.m_shortcutActions.map Prod.fst).foldl deleteShortcut st).shortcutHeap
        { (st.m_shortcutActions.map Prod.fst).foldl deleteShortcut st with
          m_shortcutActions := [] } [] :=
      ⟨by simp, by simp, rfl, hlen, [], by simp⟩
    have hend := createAll_invariant senv cfg hbuild globalActions _ _ _ _ hstart
    have hre : reloadShortcuts senv cfg st =
        globalActions.foldl (fun acc a => createGlobalShortcut senv cfg acc a.1 a.2)
          { (st.m_shortcutActions.map Prod.fst).foldl deleteShortcut st with
            m_shortcutActions := [] } := by
      simp [reloadShortcuts, hbuild]
    rw [← hre] at hend
    obtain ⟨hkeys, hnodup, hent, _, fresh, hfresh⟩ := hend
    refine ⟨?_, ?_, ?_, ?_⟩
    · unfold registeredShortcuts
      rw [hreg, hheap]
      simpa [configuredShortcuts, registeredShortcuts] using hent
    · rw [hreg]; exact hnodup
    · intro e he
      rw [hreg] at he
      rw [hheap]
      exact hkeys e he
    · intro e he hlt g hg
      rw [hheap, hfresh, List.getElem?_append_left (by rw [hlen]; exact hlt)] at hg
      have hd := hdel e.1
      rw [hg] at hd
      have hmem : e.1 ∈ st.m_shortcutActions.map Prod.fst := List.mem_map_of_mem _ he
      cases hs : st.shortcutHeap[e.1]? with
      | none => simp [hs] at hd
      | some g0 => simpa [hs, hmem] using hd
  · intro hbuild
    rw [hreg, hheap]
    simp [reloadShortcuts, hbuild]

/-! ### The tab dialog -/

theorem startsWith_append (s p q : QString) (h : startsWith s (p ++ q) = true) :
    startsWith s p = true := by
  induction p generalizing s with
  | nil => cases s <;> rfl
  | cons d p ih =>
    cases s with
    | nil => simp [startsWith] at h
    | cons c s =>
      simp only [List.cons_append, startsWith, Bool.and_eq_true, decide_eq_true_eq] at h ⊢
      exact ⟨h.1, ih s h.2⟩

theorem startsWith_eq (s p : QString) (h : startsWith s p = true) :
    s = p ++ s.drop p.length := by
  induction p generalizing s with
  | nil => simp
  | cons d p ih =>
    cases s with
    | nil => simp [startsWith] at h
    | cons c s =>
      simp only [startsWith, Bool.and_eq_true, decide_eq_true_eq] at h
      have := ih s h.2
      simp only [List.length_cons, List.drop_succ_cons, List.cons_append]
      rw [← this, h.1]

theorem inTabGroup_eq (group tab : QString) (h : inTabGroup group tab = true) :
    tab = group ++ tab.drop group.length := by
  unfold inTabGroup at h
  simp only [Bool.or_eq_true, decide_eq_true_eq] at h
  rcases h with h | h
  · rw [h]; simp
  · exact startsWith_eq tab group (startsWith_append tab group ['/'] h)

theorem validateGroup_iff (text group : QString) (tabs l : List QString) :
    validateGroup text group tabs l = true ↔
      ∀ tab ∈ l, inTabGroup group tab = true →
        text ++ mid tab group.length ≠ [] ∧ text ++ mid tab group.length ∉ tabs := by
  induction l with
  | nil => simp [validateGroup]
  | cons tab rest ih =>
    unfold validateGroup
    have hcond : ((text ++ mid tab group.length).isEmpty ||
        tabs.contains (text ++ mid tab group.length)) = true ↔
        (text ++ mid tab group.length = [] ∨ text ++ mid tab group.length ∈ tabs) := by
      simp only [Bool.or_eq_true, List.isEmpty_iff, List.contains, List.elem_eq_mem,
        decide_eq_true_eq]
    by_cases hg : inTabGroup group tab = true
    · simp only [hg, if_true, List.mem_cons, forall_eq_or_imp, forall_true_left]
      by_cases hbad : ((text ++ mid tab group.length).isEmpty ||
          tabs.contains (text ++ mid tab group.length)) = true
      · simp only [hbad, if_true, Bool.false_eq_true, false_iff, not_and]
        intro hgood
        rcases hcond.mp hbad with hb | hb
        · exact absurd hb hgood.1
        · exact absurd hb hgood.2
      · simp only [hbad, Bool.false_eq_true, if_false, ih]
        have hgood : text ++ mid tab group.length ≠ [] ∧
            text ++ mid tab group.length ∉ tabs :=
          ⟨fun h => hbad (hcond.mpr (Or.inl h)), fun h => hbad (hcond.mpr (Or.inr h))⟩
        exact ⟨fun h => ⟨hgood, h⟩, fun h => h.2⟩
    · simp only [hg, Bool.false_eq_true, if_false, ih, List.mem_cons, forall_eq_or_imp]
      exact ⟨fun h => ⟨fun hc => absurd hc (by simp), h⟩, fun h => h.2⟩

/-- C21 (as stated, refuted): in this group-rename dialog the entered text `a`
is the name of an existing tab, and `validate` enables the OK button, because
the only tab of the group, `g/x`, would become `a/x`, which is free. -/
theorem validate_enables_ok_for_existing_name :
    groupDialog.validate.okEnabled = true ∧
    groupDialog.lineEditTabName ∈ groupDialog.m_tabs := by
  decide

/-- C21 (amended): in single-tab mode (no group name) `validate` enables the OK
button exactly when the entered text is non-empty and not in the tab list; in
group-rename mode it enables it exactly when every tab of the group (equal to
the group name, or starting with it and a slash) gets a new name, the text
followed by the rest of the tab name, that is non-empty and not in the tab
list. -/
theorem validate_enables_ok (d : TabDialog) :
    (d.m_tabGroupName = [] →
      (d.validate.okEnabled = true ↔
        d.lineEditTabName ≠ [] ∧ d.lineEditTabName ∉ d.m_tabs)) ∧
    (d.m_tabGroupName ≠ [] →
      (d.validate.okEnabled = true ↔
        ∀ tab ∈ d.m_tabs, inTabGroup d.m_tabGroupName tab = true →
          d.lineEditTabName ++ mid tab d.m_tabGroupName.length ≠ [] ∧
          d.lineEditTabName ++ mid tab d.m_tabGroupName.length ∉ d.m_tabs)) := by
  constructor
  · intro hg
    simp [TabDialog.validate, hg, List.isEmpty_iff]
  · intro hg
    have hne : d.m_tabGroupName.isEmpty = false := by
      cases h : d.m_tabGroupName with
      | nil => exact absurd h hg
      | cons _ _ => rfl
    simp only [TabDialog.validate, hne, Bool.false_eq_true, if_false]
    exact validateGroup_iff _ _ _ _

/-- C27: in group-rename mode, when the tab list has no duplicates and `validate`
enables OK for the entered text, replacing the leading group name by the text in
every tab of the group gives a tab list without duplicates, and no renamed tab
has an empty name. -/
theorem tab_group_rename_valid (d : TabDialog) (hgroup : d.m_tabGroupName ≠ [])
    (hnodup : d.m_tabs.Nodup) (hok : d.validate.okEnabled = true) :
    (renameGroup d.m_tabGroupName d.lineEditTabName d.m_tabs).Nodup ∧
    ∀ tab ∈ d.m_tabs, inTabGroup d.m_tabGroupName tab = true →
      d.lineEditTabName ++ tab.drop d.m_tabGroupName.length ≠ [] := by
  have hall := ((validate_enables_ok d).2 hgroup).mp hok
  simp only [mid] at hall
  refine ⟨?_, fun tab ht hg => (hall tab ht hg).1⟩
  unfold renameGroup
  apply List.Nodup.map_on _ hnodup
  intro x hx y hy hxy
  by_cases hgx : inTabGroup d.m_tabGroupName x = true
  · by_cases hgy : inTabGroup d.m_tabGroupName y = true
    · simp only [hgx, hgy, if_true, List.append_cancel_left_eq] at hxy
      rw [inTabGroup_eq _ x hgx, inTabGroup_eq _ y hgy, hxy]
    · simp only [hgx, hgy, if_true, Bool.false_eq_true, if_false] at hxy
      exact absurd (hxy ▸ hy) (hall x hx hgx).2
  · by_cases hgy : inTabGroup d.m_tabGroupName y = true
    · simp only [hgx, hgy, if_true, Bool.false_eq_true, if_false] at hxy
      exact absurd (hxy ▸ hx) (hall y hy hgy).2
    · simpa [hgx, hgy] using hxy

/-- C27 at a concrete input: the group `g` with tabs `g`, `g/x` and the foreign
tab `a` is renamed to `h`. -/
theorem tab_group_rename_valid_witness :
    (renameGroup renameDialog.m_tabGroupName renameDialog.lineEditTabName
      renameDialog.m_tabs).Nodup :=
  (tab_group_rename_valid renameDialog (by decide) (by decide) (by decide)).1

/-! ### The item delegate -/

theorem alternate_iff (n r : Nat) : alternate n r = true ↔ n % 2 ≠ r % 2 := by
  simp [alternate, Nat.and_one_is_mod]

theorem alternate_succ (n r : Nat) : alternate (n + 1) (r + 1) = alternate n r := by
  have h : ((n + 1) % 2 = (r + 1) % 2) ↔ (n % 2 = r % 2) := by omega
  have h1 := alternate_iff (n + 1) (r + 1)
  have h2 := alternate_iff n r
  cases ha : alternate (n + 1) (r + 1) <;> cases hb : alternate n r <;> simp_all

theorem rowsInserted_one (cache : List ItemWidgetPtr) (p : Nat) :
    rowsInserted cache p p = qInsert cache p none := by
  simp [rowsInserted, insertRowsLoop]

theorem rowsRemoved_one (cache : List ItemWidgetPtr) (p : Nat) :
    rowsRemoved cache p p = cache.eraseIdx p := by
  simp [rowsRemoved, removeRowsLoop]

/-- C22: `paint` sets the `Alternate` feature exactly when the cache size and the
row have different parity; hence a widget at row `r` is painted with the same
feature after one row was inserted at a position at or before `r` (it is then at
row `r + 1` of a cache one longer) and after one row was removed before `r` (it
is then at row `r - 1` of a cache one shorter). -/
theorem alternate_background (n r : Nat) :
    (alternate n r = true ↔ n % 2 ≠ r % 2) ∧
    (∀ (cache : List ItemWidgetPtr) (p row : Nat), p ≤ row → row < cache.length →
      paintBackground (rowsInserted cache p p) (row + 1) = paintBackground cache row) ∧
    (∀ (cache : List ItemWidgetPtr) (p row : Nat), p < row → row < cache.length →
      paintBackground (rowsRemoved cache p p) (row - 1) = paintBackground cache row) := by
  refine ⟨alternate_iff n r, ?_, ?_⟩
  · intro cache p row hp hrow
    rw [rowsInserted_one]
    have hlen : (qInsert cache p none).length = cache.length + 1 := by
      simp only [qInsert, List.length_append, List.length_take, List.length_cons,
        List.length_drop]
      omega
    have hget : (qInsert cache p none)[row + 1]? = cache[row]? := by
      unfold qInsert
      have htake : (cache.take p).length = p := by
        rw [List.length_take]; omega
      rw [List.getElem?_append_right (by rw [htake]; omega), htake]
      have hidx : row + 1 - p = (row - p) + 1 := by omega
      rw [hidx, List.getElem?_cons_succ, List.getElem?_drop]
      congr 1
      omega
    unfold paintBackground
    rw [hget, hlen, alternate_succ]
  · intro cache p row hp hrow
    rw [rowsRemoved_one]
    have hlen : (cache.eraseIdx p).length + 1 = cache.length := by
      rw [List.length_eraseIdx]
      have : p < cache.length := by omega
      simp only [this, if_true]
      omega
    have hget : (cache.eraseIdx p)[row - 1]? = cache[row]? := by
      rw [List.getElem?_eraseIdx]
      have h1 : ¬ row - 1 < p := by omega
      have h2 : row - 1 + 1 = row := by omega
      simp only [h1, if_false, h2]
    have halt : alternate (cache.eraseIdx p).length (row - 1) = alternate cache.length row := by
      rw [← hlen, ← alternate_succ (cache.eraseIdx p).length (row - 1)]
      congr 1
      omega
    unfold paintBackground
    rw [hget, halt]

/-- C24 (the code at the failing input): moving the rows 0 and 1 of a cache of
five before row 4 leaves `rowsMoved` with the order 1, 3, 0, 4, 2, whereas
taking the block out and putting it back before the old row 4 gives 2, 3, 0, 1,
4. -/
theorem rowsMoved_block_down :
    rowsMoved fiveWidgets 0 1 4 = [some 1, some 3, some 0, some 4, some 2] ∧
    moveBlock fiveWidgets 0 1 4 = [some 2, some 3, some 0, some 1, some 4] := by
  decide

/-! ### The external editor -/

theorem fileModified_emitted (qHash : QByteArray → Nat) (e : ItemEditor) (file : FileState) :
    (e.fileModified qHash file).2.emitted = e.emitted ∧
    (e.fileModified qHash file).2.m_modified = e.m_modified ∧
    (e.fileModified qHash file).2.m_hash = e.m_hash := by
  unfold ItemEditor.fileModified
  split
  · cases file.contents <;> exact ⟨rfl, rfl, rfl⟩
  · exact ⟨rfl, rfl, rfl⟩

/-- C23: `onTimer` emits `fileModified` only on a tick that starts with
`m_modified` set and on which `fileModified()` returns false; then it emits the
current data once, clears `m_modified` and sets `m_hash` to the hash of the
emitted data. On a tick that starts with `m_modified` clear (so also on the tick
that first detects a change) nothing is emitted and `m_modified` becomes the
result of `fileModified()`; on a tick that starts with it set and detects a
further change nothing is emitted and it stays set. -/
theorem onTimer_emits (qHash : QByteArray → Nat) (e : ItemEditor) (file : FileState) :
    ((e.onTimer qHash file).emitted ≠ e.emitted →
      e.m_modified = true ∧ (e.fileModified qHash file).1 = false) ∧
    (e.m_modified = true → (e.fileModified qHash file).1 = false →
      (e.onTimer qHash file).emitted = e.emitted ++ [(e.onTimer qHash file).m_data] ∧
      (e.onTimer qHash file).m_data = (e.fileModified qHash file).2.m_data ∧
      (e.onTimer qHash file).m_modified = false ∧
      (e.onTimer qHash file).m_hash = qHash (e.onTimer qHash file).m_data) ∧
    (e.m_modified = false →
      (e.onTimer qHash file).emitted = e.emitted ∧
      (e.onTimer qHash file).m_modified = (e.fileModified qHash file).1) ∧
    (e.m_modified = true → (e.fileModified qHash file).1 = true →
      (e.onTimer qHash file).emitted = e.emitted ∧
      (e.onTimer qHash file).m_modified = true) := by
  obtain ⟨h1, h2, _⟩ := fileModified_emitted qHash e file
  have hyes : e.m_modified = true → (e.fileModified qHash file).1 = false →
      (e.onTimer qHash file).emitted = e.emitted ++ [(e.onTimer qHash file).m_data] ∧
      (e.onTimer qHash file).m_data = (e.fileModified qHash file).2.m_data ∧
      (e.onTimer qHash file).m_modified = false ∧
      (e.onTimer qHash file).m_hash = qHash (e.onTimer qHash file).m_data := by
    intro hm hf
    simp [ItemEditor.onTimer, hm, hf, h1]
  have hidle : e.m_modified = false →
      (e.onTimer qHash file).emitted = e.emitted ∧
      (e.onTimer qHash file).m_modified = (e.fileModified qHash file).1 := by
    intro hm
    simp [ItemEditor.onTimer, hm, h1]
  have hwait : e.m_modified = true → (e.fileModified qHash file).1 = true →
      (e.onTimer qHash file).emitted = e.emitted ∧
      (e.onTimer qHash file).m_modified = true := by
    intro hm hf
    simp [ItemEditor.onTimer, hm, hf, h1, h2]
  refine ⟨?_, hyes, hidle, hwait⟩
  intro hne
  cases hm : e.m_modified with
  | false => exact absurd (hidle hm).1 hne
  | true =>
    cases hf : (e.fileModified qHash file).1 with
    | false => exact ⟨rfl, rfl⟩
    | true => exact absurd (hwait hm hf).1 hne

/-! ### The encrypted tab loader -/

theorem takeWhile_snoc {α : Type} (p : α → Bool) (l : List α) (x : α) :
    (l ++ [x]).takeWhile p =
      if l.all p then (if p x then l ++ [x] else l) else l.takeWhile p := by
  induction l with
  | nil => cases hp : p x <;> simp [List.takeWhile, hp]
  | cons a l ih =>
    cases ha : p a
    · simp [List.takeWhile, ha]
    · simp only [List.cons_append, List.takeWhile_cons, ha, if_true, List.all_cons,
        Bool.true_and]
      rw [ih]
      cases hall : l.all p
      · simp
      · cases hx : p x <;> simp

theorem all_ne_reverse (c : Char) (s : QString) :
    (s.reverse.all (fun x => x != c)) = true ↔ c ∉ s := by
  simp only [List.all_eq_true, List.mem_reverse, bne_iff_ne, ne_eq]
  constructor
  · intro h hc; exact h c hc rfl
  · intro h x hx e; exact h (e ▸ hx)

theorem afterLast_of_not_mem (c : Char) (s : QString) (h : c ∉ s) : afterLast c s = s := by
  unfold afterLast
  have : s.reverse.takeWhile (fun x => x != c) = s.reverse := by
    rw [List.takeWhile_eq_self_iff]
    intro x hx
    have hx' : x ∈ s := List.mem_reverse.mp hx
    simp only [bne_iff_ne, ne_eq]
    intro e
    exact h (e ▸ hx')
  rw [this, List.reverse_reverse]

theorem afterLast_cons (c x : Char) (xs : QString) :
    afterLast c (x :: xs) =
      if c ∈ xs then afterLast c xs else if x = c then xs else x :: xs := by
  unfold afterLast
  rw [List.reverse_cons, takeWhile_snoc]
  by_cases hmem : c ∈ xs
  · have hall : (xs.reverse.all (fun y => y != c)) = false := by
      cases h : xs.reverse.all (fun y => y != c)
      · rfl
      · exact absurd hmem ((all_ne_reverse c xs).mp h)
    simp only [hall, Bool.false_eq_true, if_false, hmem, if_true]
  · have hall := (all_ne_reverse c xs).mpr hmem
    simp only [hall, if_true, hmem, if_false]
    by_cases hx : x = c
    · simp [hx]
    · simp [hx]

theorem lastIndexOf_sign (c : Char) (s : QString) :
    (c ∈ s → 0 ≤ lastIndexOf s c) ∧ (c ∉ s → lastIndexOf s c = -1) := by
  induction s with
  | nil => simp [lastIndexOf]
  | cons x xs ih =>
    unfold lastIndexOf
    by_cases hmem : c ∈ xs
    · have h0 := ih.1 hmem
      simp only [h0, if_true, List.mem_cons, hmem, or_true, forall_true_left, not_true,
        false_implies, and_true]
      omega
    · have h1 := ih.2 hmem
      simp only [h1]
      by_cases hx : x = c
      · simp [hx]
      · have hne : ¬ c = x := fun e => hx e.symm
        simp [hx, hne, hmem]

theorem removeFront_lastIndexOf (c : Char) (s : QString) :
    removeFront s (lastIndexOf s c + 1) = afterLast c s := by
  induction s with
  | nil => simp [removeFront, afterLast]
  | cons x xs ih =>
    rw [afterLast_cons]
    unfold removeFront at ih ⊢
    unfold lastIndexOf
    by_cases hmem : c ∈ xs
    · have h0 := (lastIndexOf_sign c xs).1 hmem
      simp only [h0, if_true, hmem]
      have hn : (lastIndexOf xs c + 1 + 1).toNat = (lastIndexOf xs c + 1).toNat + 1 := by omega
      rw [hn, List.drop_succ_cons, ih]
    · have h1 := (lastIndexOf_sign c xs).2 hmem
      simp only [h1, hmem, if_false]
      by_cases hx : x = c
      · simp [hx]
      · simp [hx]

theorem canSaveItems_iff (encryptTabs : List QString) (tabName : QString) :
    canSaveItems encryptTabs tabName = true ↔
      ∃ p ∈ encryptTabs, comparedTabName p tabName = p := by
  induction encryptTabs with
  | nil => simp [canSaveItems]
  | cons p rest ih =>
    have hstep : (if !p.contains '/' then
          removeFront (if !p.contains '&' then removeChar tabName '&' else tabName)
            (lastIndexOf (if !p.contains '&' then removeChar tabName '&' else tabName) '/' + 1)
        else (if !p.contains '&' then removeChar tabName '&' else tabName)) =
        comparedTabName p tabName := by
      unfold comparedTabName removeChar
      by_cases ha : '&' ∈ p <;> by_cases hs : '/' ∈ p <;>
        simp [List.contains, ha, hs, removeFront_lastIndexOf]
    unfold canSaveItems
    simp only [hstep, List.mem_cons, exists_eq_or_imp]
    by_cases heq : comparedTabName p tabName = p
    · simp [heq]
    · have hb : (comparedTabName p tabName == p) = false := by simpa using heq
      simp only [hb, Bool.false_eq_true, if_false, ih, heq, false_or]

theorem comparedTabName_self (p : QString) : comparedTabName p p = p := by
  unfold comparedTabName
  have hfilter : '&' ∉ p → p.filter (fun x => x != '&') = p := by
    intro h
    rw [List.filter_eq_self]
    intro a ha
    simp only [bne_iff_ne, ne_eq]
    intro e
    exact h (e ▸ ha)
  by_cases ha : '&' ∈ p <;> by_cases hs : '/' ∈ p
  · simp [ha, hs]
  · simp [ha, hs, afterLast_of_not_mem '/' p hs]
  · simp [ha, hs, hfilter ha]
  · simp [ha, hs, hfilter ha, afterLast_of_not_mem '/' p hs]

/-- C29: `canSaveItems` returns true exactly when the `encrypt_tabs` list has a
name `p` equal to the model's tab name after every `&` was deleted from it if
`p` contains none, and everything up to and including its last `/` was dropped
if `p` contains none; in particular a tab named exactly like an entry of the
list is accepted. -/
theorem canSaveItems_matches (encryptTabs : List QString) (tabName : QString) :
    (canSaveItems encryptTabs tabName = true ↔
      ∃ p ∈ encryptTabs, comparedTabName p tabName = p) ∧
    (∀ p ∈ encryptTabs, canSaveItems encryptTabs p = true) := by
  refine ⟨canSaveItems_iff encryptTabs tabName, fun p hp => ?_⟩
  exact (canSaveItems_iff encryptTabs p).mpr ⟨p, hp, comparedTabName_self p⟩

/-- C28 (the code at the failing input): a stream that stores one item is
loaded into a model that already has two rows and allows three. The claim
allows no insertion (`max(0, min(1, 3) - 2) = 0`) and at most three rows; the
unsigned subtraction wraps, the loop runs until the stream is exhausted, and
`loadItems` returns false having inserted two rows, leaving four. -/
theorem loadItems_wraps_around :
    claimedInsertBound 1 twoRowModel.maxItems twoRowModel.rows.length = 0 ∧
    max twoRowModel.maxItems twoRowModel.rows.length = 3 ∧
    (loadItems twoRowModel oneItemStream).1 = false ∧
    (loadItems twoRowModel oneItemStream).2.rows.length = twoRowModel.rows.length + 2 ∧
    (loadItems twoRowModel oneItemStream).2.rows.length = 4 := by
  decide

/-! ### Re-ingestion after a configuration push or a pause -/

/-- C25: after `loadMonitorSettings` ran on a connected session `lastHash` is 0
whatever it was; so when the next notification meets a clear `ignoreNext`, is
not self-originated, is not empty and has a hash other than 0, and clipboard
checking and storing are enabled, it is added to the history, whatever was
stored last before the push. -/
theorem reload_forgets_last_hash (env : Env) (senv : ServerEnv) (cfg : ConfigurationManager)
    (s : ClipboardServer) (hmon : isMonitoring s = true) :
    (loadMonitorSettings env senv cfg s).m_lastHash = 0 ∧
    ∀ (message : QByteArray) (data : QVariantMap),
      env.deserializeData message = some data →
      mapContains data env.mimeMessage = false →
      (loadMonitorSettings env senv cfg s).m_ignoreNextItem = false →
      env.ownsClipboardData data = false →
      env.isEmpty data = false →
      env.dataHash data ≠ 0 →
      (loadMonitorSettings env senv cfg s).m_checkclip = true →
      (loadMonitorSettings env senv cfg s).wnd.storingDisabled = false →
      (newMonitorMessage env (loadMonitorSettings env senv cfg s) message).wnd.history =
        s.wnd.history ++ [data] := by
  rcases isMonitoring_cases s with ⟨_, i, p, hi, hp, hc⟩ | hm
  · have h1 := loadMonitorSettings_connected env senv cfg s i p hi hp hc
    have hhash : (loadMonitorSettings env senv cfg s).m_lastHash = 0 := by rw [h1]
    have hwnd : (loadMonitorSettings env senv cfg s).wnd = s.wnd := by rw [h1]
    refine ⟨hhash, ?_⟩
    intro message data hdec hmsg hign hown hemp hne hcheck hstore
    rw [newMonitorMessage_item env _ message data hdec hmsg]
    have hne' : (0 : Nat) ≠ env.dataHash data := fun e => hne e.symm
    simp only [hign, hown, hcheck, hemp, hhash, hstore, Bool.false_eq_true, if_false,
      Bool.not_false, Bool.and_self, Bool.true_and, bne_iff_ne, ne_eq, hne',
      not_false_eq_true, if_true]
    simp only [addToTab, (notifyWindow_fields env _ data).1, hwnd]
  · rw [hm] at hmon; cases hmon

/-- C25 at a concrete input: the text stored last is stored again when it
arrives after a configuration push. -/
theorem reload_forgets_last_hash_witness :
    (newMonitorMessage sampleEnv
        (loadMonitorSettings sampleEnv sampleServerEnv sampleConfig storedOnceServer)
        [104, 105]).wnd.history =
      storedOnceServer.wnd.history ++ [[("text/plain", [104, 105])]] :=
  (reload_forgets_last_hash sampleEnv sampleServerEnv sampleConfig storedOnceServer
    (by decide)).2 [104, 105] [("text/plain", [104, 105])] rfl (by decide) (by decide)
    (by decide) (by decide) (by decide) (by decide) (by decide)

/-- C26: there are items `A` and `B` of different hashes and a run in which `A`
is stored, `B` arrives while storing is disabled (it is not stored, but its hash
becomes `lastHash`), and `A` arrives again after storing was enabled and is
stored again: the history receives `A` twice in a row and nothing in between. -/
theorem same_item_stored_twice_in_a_row :
    ∃ (env : Env) (s : ClipboardServer) (a b : QByteArray) (A B : QVariantMap),
      env.deserializeData a = some A ∧ env.deserializeData b = some B ∧
      env.dataHash A ≠ env.dataHash B ∧
      (newMonitorMessage env s a).wnd.history = s.wnd.history ++ [A] ∧
      (newMonitorMessage env (setStoringDisabled (newMonitorMessage env s a) true)
        b).wnd.history = s.wnd.history ++ [A] ∧
      (newMonitorMessage env (setStoringDisabled (newMonitorMessage env s a) true)
        b).m_lastHash = env.dataHash B ∧
      (newMonitorMessage env
        (setStoringDisabled
          (newMonitorMessage env (setStoringDisabled (newMonitorMessage env s a) true) b)
          false) a).wnd.history = s.wnd.history ++ [A, A] := by
  refine ⟨sampleEnv, checkingServer, [65], [66], [("text/plain", [65])],
    [("text/plain", [66])], rfl, rfl, ?_⟩
  decide

/-! ### Where `rowsMoved` and `loadItems` do agree with the claims -/

theorem qMove_up {α : Type} (X C R : List α) (y : α) :
    qMove (X ++ (C ++ y :: R)) (X.length + C.length) X.length = X ++ y :: (C ++ R) := by
  have hget : (X ++ (C ++ y :: R))[X.length + C.length]? = some y := by
    rw [List.getElem?_append_right (Nat.le_add_right _ _), Nat.add_sub_cancel_left,
      List.getElem?_append_right (Nat.le_refl _), Nat.sub_self]
    simp
  have herase : (X ++ (C ++ y :: R)).eraseIdx (X.length + C.length) = X ++ (C ++ R) := by
    rw [List.eraseIdx_append_of_length_le (Nat.le_add_right _ _), Nat.add_sub_cancel_left,
      List.eraseIdx_append_of_length_le (Nat.le_refl _), Nat.sub_self]
    rfl
  unfold qMove
  rw [hget]
  simp only [herase, qInsert, List.take_left, List.drop_left]

theorem qMove_down {α : Type} (X C R : List α) (y : α) :
    qMove (X ++ (y :: (C ++ R))) X.length (X.length + C.length) = X ++ (C ++ y :: R) := by
  have hget : (X ++ (y :: (C ++ R)))[X.length]? = some y := by
    rw [List.getElem?_append_right (Nat.le_refl _), Nat.sub_self]
    simp
  have herase : (X ++ (y :: (C ++ R))).eraseIdx X.length = X ++ (C ++ R) := by
    rw [List.eraseIdx_append_of_length_le (Nat.le_refl _), Nat.sub_self]
    rfl
  unfold qMove
  rw [hget]
  simp only [herase, qInsert]
  have h1 : (X ++ (C ++ R)).take (X.length + C.length) = X ++ C := by
    rw [← List.append_assoc, List.take_left' (by simp)]
  have h2 : (X ++ (C ++ R)).drop (X.length + C.length) = R := by
    rw [← List.append_assoc, List.drop_left' (by simp)]
  rw [h1, h2, List.append_assoc]

theorem moveRowsLoop_up {α : Type} (A C R : List α) (block : List α) :
    ∀ B : List α,
      moveRowsLoop (A ++ (B ++ (C ++ (block ++ R)))) block.length
        (A.length + B.length + C.length) (A.length + B.length) =
      A ++ (B ++ (block ++ (C ++ R))) := by
  induction block with
  | nil => intro B; simp [moveRowsLoop]
  | cons y rest ih =>
    intro B
    simp only [List.length_cons, moveRowsLoop]
    have hmove : qMove (A ++ (B ++ (C ++ (y :: rest ++ R))))
        (A.length + B.length + C.length) (A.length + B.length) =
        A ++ ((B ++ [y]) ++ (C ++ (rest ++ R))) := by
      have := qMove_up (A ++ B) C (rest ++ R) y
      simp only [List.length_append, List.append_assoc, List.cons_append,
        List.singleton_append] at this ⊢
      exact this
    rw [hmove]
    have := ih (B ++ [y])
    simp only [List.length_append, List.length_singleton, List.append_assoc,
      List.singleton_append] at this
    have e1 : A.length + (B.length + 1) + C.length = A.length + B.length + C.length + 1 := by
      omega
    have e2 : A.length + (B.length + 1) = A.length + B.length + 1 := by omega
    rw [e1, e2] at this
    simpa [List.append_assoc] using this

theorem split_three {α : Type} (l : List α) (d s e : Nat) (hds : d ≤ s) (hse : s ≤ e + 1) :
    l = l.take d ++ ((l.drop d).take (s - d) ++
      ((l.drop s).take (e + 1 - s) ++ l.drop (e + 1))) := by
  have h1 : (l.drop s).take (e + 1 - s) ++ l.drop (e + 1) = l.drop s := by
    have := List.take_append_drop (e + 1 - s) (l.drop s)
    rw [List.drop_drop] at this
    have e1 : s + (e + 1 - s) = e + 1 := by omega
    rw [e1] at this
    exact this
  have h2 : (l.drop d).take (s - d) ++ l.drop s = l.drop d := by
    have := List.take_append_drop (s - d) (l.drop d)
    rw [List.drop_drop] at this
    have e1 : d + (s - d) = s := by omega
    rw [e1] at this
    exact this
  rw [h1, h2, List.take_append_drop]

/-- A block of rows moved towards the front is handled by `rowsMoved` as the
model's row-move semantics asks. -/
theorem rowsMoved_towards_front {α : Type} (l : List α) (s e d : Nat)
    (hse : s ≤ e) (he : e < l.length) (hd : d ≤ s) :
    rowsMoved l s e d = moveBlock l s e d := by
  have hnot : ¬ s < d := by omega
  unfold rowsMoved moveBlock
  simp only [hnot, if_false, hd, if_true]
  have hsplit := split_three l d s e hd (by omega)
  have hA : (l.take d).length = d := by rw [List.length_take]; omega
  have hC : ((l.drop d).take (s - d)).length = s - d := by
    rw [List.length_take, List.length_drop]; omega
  have hB : ((l.drop s).take (e + 1 - s)).length = e + 1 - s := by
    rw [List.length_take, List.length_drop]; omega
  have := moveRowsLoop_up (l.take d) ((l.drop d).take (s - d)) (l.drop (e + 1))
    ((l.drop s).take (e + 1 - s)) []
  simp only [List.nil_append, List.length_nil, Nat.add_zero, hA, hC, hB] at this
  rw [← hsplit] at this
  have e1 : d + (s - d) = s := by omega
  rw [e1] at this
  rw [this]
  simp only [List.append_assoc]

/-- A single row moved towards the end is handled by `rowsMoved` as the model's
row-move semantics asks. -/
theorem rowsMoved_single_down {α : Type} (l : List α) (s d : Nat)
    (hs : s < l.length) (hsd : s + 1 < d) (hd : d ≤ l.length) :
    rowsMoved l s s d = moveBlock l s s d := by
  have hlt : s < d := by omega
  have hnot : ¬ d ≤ s := by omega
  unfold rowsMoved moveBlock
  simp only [hlt, if_true, hnot, if_false]
  have hcount : s + 1 - s = 1 := by omega
  rw [hcount]
  simp only [moveRowsLoop]
  have hsplit := split_three l s (s + 1) (d - 1) (by omega) (by omega)
  have e1 : d - 1 + 1 = d := by omega
  have e2 : s + 1 - s = 1 := by omega
  rw [e1, e2] at hsplit
  cases hrow : (l.drop s).take 1 with
  | nil =>
    have : ((l.drop s).take 1).length = 1 := by
      rw [List.length_take, List.length_drop]; omega
    rw [hrow] at this
    simp at this
  | cons y ys =>
    have hys : ys = [] := by
      have : ((l.drop s).take 1).length = 1 := by
        rw [List.length_take, List.length_drop]; omega
      rw [hrow] at this
      simpa using this
    subst hys
    rw [hrow] at hsplit
    have hA : (l.take s).length = s := by rw [List.length_take]; omega
    have hC : ((l.drop (s + 1)).take (d - (s + 1))).length = d - 1 - s := by
      rw [List.length_take, List.length_drop]; omega
    have := qMove_down (l.take s) ((l.drop (s + 1)).take (d - (s + 1))) (l.drop d) y
    rw [hA, hC] at this
    have e3 : s + (d - 1 - s) = d - 1 := by omega
    rw [e3] at this
    have hl : l = l.take s ++ (y :: ((l.drop (s + 1)).take (d - (s + 1)) ++ l.drop d)) := by
      simpa using hsplit
    rw [← hl] at this
    rw [this]
    simp only [List.append_assoc, List.singleton_append]

theorem insertRow_length (m m1 : ItemModel) (i : Nat) (h : m.insertRow i = some m1) :
    m1.rows.length = m.rows.length + 1 ∧ m1.maxItems = m.maxItems := by
  unfold ItemModel.insertRow at h
  by_cases hi : i ≤ m.rows.length
  · simp only [hi, if_true, Option.some.injEq] at h
    subst h
    simp only [List.length_append, List.length_take, List.length_cons, List.length_drop,
      and_true]
    omega
  · simp [hi] at h

theorem loadLoop_bound (length : Nat) (items : List QVariantMap) :
    ∀ (i : Nat) (m : ItemModel),
      (loadLoop length items i m).2.rows.length ≤ m.rows.length + (length - i) := by
  induction items with
  | nil =>
    intro i m
    unfold loadLoop
    by_cases hlt : i < length
    · simp only [hlt, if_true]
      cases hins : m.insertRow i with
      | none => simp
      | some m1 =>
        have := (insertRow_length m m1 i hins).1
        simp only [ItemModel.setData, List.length_set, this]
        omega
    · simp [hlt]
  | cons d rest ih =>
    intro i m
    unfold loadLoop
    by_cases hlt : i < length
    · simp only [hlt, if_true]
      cases hins : m.insertRow i with
      | none => simp
      | some m1 =>
        have hlen := (insertRow_length m m1 i hins).1
        have := ih (i + 1) (m1.setData i d)
        simp only [ItemModel.setData, List.length_set, hlen] at this ⊢
        omega
    · simp [hlt]

/-- When the model holds no more rows than `min(storedCount, maxItems)` on entry,
`loadItems` inserts at most `min(storedCount, maxItems) - rowCount` rows. -/
theorem loadItems_bound (m : ItemModel) (stream : DecryptedStream) (count : Nat)
    (hcount : stream.count = some count) (hc : count < UINT64)
    (hmax : 0 ≤ m.maxItems) (hmax2 : m.maxItems < (UINT64 : Int))
    (hrows : (m.rows.length : Int) ≤ min (count : Int) m.maxItems) :
    ((loadItems m stream).2.rows.length : Int) - m.rows.length ≤
      claimedInsertBound count m.maxItems m.rows.length := by
  unfold loadItems claimedInsertBound
  simp only [hcount]
  by_cases h0 : count = 0
  · simp only [h0, if_true]
    omega
  · simp only [h0, if_false]
    have hb := loadLoop_bound
      ((min count (m.maxItems % (UINT64 : Int)).toNat + UINT64 - m.rows.length % UINT64) % UINT64)
      stream.items 0 m
    have hmod : m.maxItems % (UINT64 : Int) = m.maxItems := Int.emod_eq_of_lt hmax hmax2
    rw [hmod] at hb ⊢
    unfold UINT64 at hb hc hmax2 ⊢
    omega

end CopyQ
